import Mathlib

/-!
Shallow embedding of the orchestration core of the Telegrambot video-analysis
repository (chunk planner, timestamp arithmetic, result merger, credential
pool, parallel chunk scheduler, upload wait loop, job queue and intake
handler), together with proofs settling the frozen claims about it.

JavaScript numbers are modelled as `ℚ` (all the arithmetic the claims touch is
exact on rationals), machine timestamps (`Date.now()`) as rationals as well,
strings as Lean `String`/`List Char`.
-/

namespace Telegrambot

/-! ### JavaScript primitive helpers -/

/-- Truncation of a rational toward zero, as JavaScript coerces the quotient in
its `%` remainder operator. -/
def ratTrunc (q : ℚ) : ℤ :=
  if q < 0 then -⌊-q⌋ else ⌊q⌋

/-- The JavaScript `%` remainder operator on numbers: `a - b * trunc (a / b)`.
For nonnegative operands it agrees with the mathematical remainder. -/
def jsRem (a b : ℚ) : ℚ :=
  a - b * (ratTrunc (a / b) : ℚ)

/-- JavaScript `Math.round`: round half toward positive infinity. -/
def jsRound (x : ℚ) : ℤ :=
  ⌊x + 1 / 2⌋

/-- Decimal digit character for a digit value (`d ≤ 9`). -/
def digitChar : ℕ → Char
  | 0 => '0'
  | 1 => '1'
  | 2 => '2'
  | 3 => '3'
  | 4 => '4'
  | 5 => '5'
  | 6 => '6'
  | 7 => '7'
  | 8 => '8'
  | _ => '9'

/-- Numeric value of a digit character. -/
def charVal (c : Char) : ℕ :=
  c.toNat - 48

/-- Whether a character is a decimal digit. -/
def isDigitChar (c : Char) : Bool :=
  48 ≤ c.toNat && c.toNat ≤ 57

/-- Fuel-driven core of decimal rendering (structural recursion so that the
kernel can evaluate it; the fuel is always sufficient when called through
`natRepr`). -/
def natReprAux : ℕ → ℕ → List Char
  | 0, _ => []
  | fuel + 1, n =>
    if n < 10 then [digitChar n]
    else natReprAux fuel (n / 10) ++ [digitChar (n % 10)]

/-- Decimal rendering of a natural number (the character list of JavaScript
`n.toString()` for a nonnegative integer-valued number). -/
def natRepr (n : ℕ) : List Char :=
  natReprAux (n + 1) n

/-- Decimal rendering of an integer-valued JavaScript number (`i.toString()`). -/
def intRepr (i : ℤ) : List Char :=
  if i < 0 then '-' :: natRepr i.natAbs else natRepr i.toNat

/-- Value of a list of digit characters read in base 10 (most significant
first), the accumulator form used by decimal parsing. -/
def digitsVal (cs : List Char) : ℕ :=
  cs.foldl (fun a c => a * 10 + charVal c) 0

/-- JavaScript `s.padStart(2, '0')` on a character list. -/
def padStart2 (cs : List Char) : List Char :=
  List.replicate (2 - cs.length) '0' ++ cs

/-- JavaScript `s.split(':')` on a character list: the (always nonempty) list
of separator-free segments. -/
def splitOnColon : List Char → List (List Char)
  | [] => [[]]
  | c :: rest =>
    if c = ':' then [] :: splitOnColon rest
    else
      match splitOnColon rest with
      | [] => [[c]]
      | p :: ps => (c :: p) :: ps

/-- JavaScript `Number(str)` on the strings this program feeds it: the empty
string coerces to `0`, a plain string of decimal digits to its value, and
anything else (here) to NaN, modelled as `none`. Exotic numeric literal forms
(signs, decimals, exponents, hex) never reach `Number` in the embedded code
paths and are mapped to `none` as well. -/
def jsNumberChars (cs : List Char) : Option ℚ :=
  if cs = [] then some 0
  else if cs.all isDigitChar then some ((digitsVal cs : ℚ)) else none

/-! ### videoChunker.ts -/

/-- Chunk descriptor produced by the planner
(`src/src/lib/videoChunker.ts`, interface `ChunkMetadata`). -/
structure ChunkMetadata where
  index : ℕ
  startTime : ℚ
  endTime : ℚ
  duration : ℚ
  fileName : String
deriving Repr, DecidableEq

/-- Planner configuration (`interface ChunkingConfig`, received as a
`Partial`, so every field may be absent). -/
structure ChunkingConfig where
  chunkDurationMinutes : Option ℚ := none
  maxFileSize : Option ℚ := none
  overlapSeconds : Option ℚ := none
deriving Repr, DecidableEq

/-- JavaScript `x || d` for an optional number: an absent or zero (falsy)
value selects the default. -/
def jsOrDefault (x : Option ℚ) (d : ℚ) : ℚ :=
  match x with
  | none => d
  | some v => if v = 0 then d else v

/-- Embeds `calculateChunkStrategy` (videoChunker.ts lines 23-53): chunk
duration defaults to 20 minutes, overlap to 5 seconds (both through JS falsy
defaulting), `numChunks = ceil(D / chunkSeconds)`, chunk `i` spans
`[i*chunkSeconds, min((i+1)*chunkSeconds + overlap, D)]`. -/
def calculateChunkStrategy (videoDurationSeconds : ℚ)
    (config : ChunkingConfig) : List ChunkMetadata :=
  let chunkDurationMinutes := jsOrDefault config.chunkDurationMinutes 20
  let overlapSeconds := jsOrDefault config.overlapSeconds 5
  let chunkDurationSeconds := chunkDurationMinutes * 60
  let totalDuration := videoDurationSeconds
  let numChunks := (⌈totalDuration / chunkDurationSeconds⌉).toNat
  (List.range numChunks).map fun (i : ℕ) =>
    let startTime : ℚ := (i : ℚ) * chunkDurationSeconds
    let endTime : ℚ := min (((i : ℚ) + 1) * chunkDurationSeconds + overlapSeconds) totalDuration
    { index := i
      startTime := startTime
      endTime := endTime
      duration := endTime - startTime
      fileName := "chunk_" ++ String.mk (natRepr i) ++ ".mp4" }

/-- Embeds `secondsToTimestamp` (videoChunker.ts lines 70-79): `HH:MM:SS` when
at least one hour, `MM:SS` otherwise, each component zero-padded to width 2. -/
def secondsToTimestamp (seconds : ℚ) : String :=
  let h : ℤ := ⌊seconds / 3600⌋
  let m : ℤ := ⌊jsRem seconds 3600 / 60⌋
  let s : ℤ := ⌊jsRem seconds 60⌋
  if h > 0 then
    String.mk (padStart2 (intRepr h) ++ ':' :: padStart2 (intRepr m) ++ ':' :: padStart2 (intRepr s))
  else
    String.mk (padStart2 (intRepr m) ++ ':' :: padStart2 (intRepr s))

/-- Embeds `timestampToSeconds` (videoChunker.ts lines 84-96): split on `:`,
coerce each part with `Number`; two parts are `MM:SS`, three are `HH:MM:SS`,
any other part count yields `0`. A NaN part (modelled by `none`) propagates
through the arithmetic, so the result is `none` exactly when JS returns NaN. -/
def timestampToSeconds (timestamp : String) : Option ℚ :=
  match (splitOnColon timestamp.toList).map jsNumberChars with
  | [a, b] =>
    match a, b with
    | some x, some y => some (x * 60 + y)
    | _, _ => none
  | [a, b, c] =>
    match a, b, c with
    | some x, some y, some z => some (x * 3600 + y * 60 + z)
    | _, _, _ => none
  | _ => some 0

/-- Embeds `adjustTimestamp` (videoChunker.ts lines 101-105): parse, add the
offset, format back. When the parse is NaN the sum is NaN and JS formats the
NaN components as the literal string `NaN:NaN`. -/
def adjustTimestamp (timestamp : String) (offsetSeconds : ℚ) : String :=
  match timestampToSeconds timestamp with
  | some seconds => secondsToTimestamp (seconds + offsetSeconds)
  | none => "NaN:NaN"

/-- JavaScript `n.toString()` for a natural number, as a `String`. -/
def natToString (n : ℕ) : String :=
  String.mk (natRepr n)

/-! ### resultMerger.ts -/

/-- A chapter of the analysis document (`interface VideoAnalysisResult`,
field `chapters`). -/
structure Chapter where
  title : String
  start_time : String
  end_time : String
  summary : String
  key_points : List String
deriving Repr, DecidableEq

/-- An entry of `content_metadata.filtered_categories`. -/
structure FilteredCategory where
  category : String
  description : String
  approximate_duration : String
deriving Repr, DecidableEq

/-- An entry of `content_metadata.main_content_timestamps`. -/
structure MainTimestamp where
  start : String
  «end» : String
  description : String
deriving Repr, DecidableEq

/-- The `content_metadata` object of an analysis document. -/
structure ContentMetadata where
  original_duration_estimate : String
  essential_content_duration : String
  content_removed_percentage : ℚ
  filtered_categories : List FilteredCategory
  main_content_timestamps : List MainTimestamp
deriving Repr, DecidableEq

/-- The analysis document returned by the model for one chunk
(`interface VideoAnalysisResult` in resultMerger.ts). -/
structure VideoAnalysisResult where
  clean_script : String
  chapters : List Chapter
  full_session_summary : String
  important_concepts : List String
  recommended_practice : List String
  content_metadata : ContentMetadata
deriving Repr, DecidableEq

/-- One chunk's outcome handed to the merger (`interface ChunkResult`). -/
structure ChunkResult where
  chunkIndex : ℕ
  chunkStartOffset : ℚ
  result : VideoAnalysisResult
deriving Repr, DecidableEq

/-- JavaScript `[...chunkResults].sort((a, b) => a.chunkIndex - b.chunkIndex)`:
a stable sort by chunk index (modelled by insertion sort, which is stable like
the ECMAScript sort). -/
def sortChunks (chunkResults : List ChunkResult) : List ChunkResult :=
  List.insertionSort (fun a b => a.chunkIndex ≤ b.chunkIndex) chunkResults

/-- ASCII lower-casing of a character, as JavaScript `toLowerCase()` acts on
the ASCII strings this program handles. -/
def jsToLowerChar (c : Char) : Char :=
  if 65 ≤ c.toNat ∧ c.toNat ≤ 90 then Char.ofNat (c.toNat + 32) else c

/-- JavaScript `trim()` on a character list. The sources only ever carry
ordinary spaces, which is the whitespace this model strips. -/
def trimChars (cs : List Char) : List Char :=
  ((cs.dropWhile (· = ' ')).reverse.dropWhile (· = ' ')).reverse

/-- JavaScript `item.toLowerCase().trim()`, the normalisation key used by
`deduplicateArray`. -/
def normalizeItem (s : String) : String :=
  String.mk (trimChars (s.toList.map jsToLowerChar))

/-- Embeds `deduplicateArray` (resultMerger.ts lines 202-213): keep the first
occurrence of each case-insensitively trimmed-equal string, in first-seen
order. -/
def deduplicateArray (items : List String) : List String :=
  deduplicateArrayAux items []
where
  /-- Recursion with the set of already-seen normalised keys. -/
  deduplicateArrayAux : List String → List String → List String
  | [], _ => []
  | x :: rest, seen =>
    let nx := normalizeItem x
    if seen.contains nx then deduplicateArrayAux rest seen
    else x :: deduplicateArrayAux rest (nx :: seen)

/-- JavaScript `parseInt(s)` after a `trim()`: optional sign followed by a
leading run of decimal digits; no leading digit gives NaN (`none`). -/
def parseIntChars (cs : List Char) : Option ℤ :=
  match trimChars cs with
  | '-' :: rest =>
    let ds := rest.takeWhile isDigitChar
    if ds = [] then none else some (-(digitsVal ds : ℤ))
  | '+' :: rest =>
    let ds := rest.takeWhile isDigitChar
    if ds = [] then none else some (digitsVal ds : ℤ)
  | other =>
    let ds := other.takeWhile isDigitChar
    if ds = [] then none else some (digitsVal ds : ℤ)

/-- Case-insensitive test that `cs` starts with the (lower-case) pattern. -/
def startsWithCI : List Char → List Char → Bool
  | [], _ => true
  | _ :: _, [] => false
  | p :: ps, c :: cs => jsToLowerChar c = p && startsWithCI ps cs

/-- One attempt of the regex `/~?(\d+)\s*(?:minutes?|min)/i` anchored at the
head of the list: optional `~`, a nonempty digit run (the capture), optional
spaces, then `min` case-insensitively. -/
def matchMinutesAt (cs : List Char) : Option ℕ :=
  let afterTilde := match cs with
    | '~' :: rest => rest
    | other => other
  let ds := afterTilde.takeWhile isDigitChar
  if ds = [] then none
  else
    let rest := (afterTilde.drop ds.length).dropWhile (· = ' ')
    if startsWithCI ['m', 'i', 'n'] rest then some (digitsVal ds) else none

/-- Leftmost match of `/~?(\d+)\s*(?:minutes?|min)/i`, returning the captured
digits. -/
def minuteMatchCapture : List Char → Option ℕ
  | [] => none
  | c :: rest =>
    match matchMinutesAt (c :: rest) with
    | some v => some v
    | none => minuteMatchCapture rest

/-- The anchored regex `/^~?(\d+)$/`: optional `~` then only digits. -/
def numMatchCapture (cs : List Char) : Option ℕ :=
  let afterTilde := match cs with
    | '~' :: rest => rest
    | other => other
  if afterTilde ≠ [] ∧ afterTilde.all isDigitChar then some (digitsVal afterTilde)
  else none

/-- Embeds `parseDuration` (resultMerger.ts lines 162-189): falsy or
`Unknown` gives 0; a string containing `:` is split and the non-NaN
`parseInt` results used when exactly 2 or 3 remain; otherwise the
`N minutes` regex, then the bare-number regex, then 0. -/
def parseDuration (duration : String) : ℤ :=
  if duration = "" || duration = "Unknown" || duration = "unknown" then 0
  else
    let cs := duration.toList
    let viaColon : Option ℤ :=
      if cs.contains ':' then
        match (splitOnColon cs).filterMap (fun p => parseIntChars p) with
        | [a, b] => some (a * 60 + b)
        | [a, b, c] => some (a * 3600 + b * 60 + c)
        | _ => none
      else none
    match viaColon with
    | some v => v
    | none =>
      match minuteMatchCapture cs with
      | some n => (n : ℤ) * 60
      | none =>
        match numMatchCapture cs with
        | some n => (n : ℤ) * 60
        | none => 0

/-- Embeds `formatDuration` (resultMerger.ts lines 194-197): 0 renders as
`Unknown`, anything else through `secondsToTimestamp`. -/
def formatDuration (seconds : ℤ) : String :=
  if seconds = 0 then "Unknown" else secondsToTimestamp (seconds : ℚ)

/-- Insertion-ordered map update used for the category merge: add the parsed
duration onto an existing category entry, or append a new entry. An entry is
`(category, description, totalSeconds)`. -/
def addCategory (acc : List (String × String × ℤ)) (cat : FilteredCategory) :
    List (String × String × ℤ) :=
  let duration := parseDuration cat.approximate_duration
  match acc with
  | [] => [(cat.category, cat.description, duration)]
  | (c, d, t) :: rest =>
    if c = cat.category then (c, d, t + duration) :: rest
    else (c, d, t) :: addCategory rest cat

/-- Embeds `mergeContentMetadata` (resultMerger.ts lines 98-156): sum the
parsed durations and percentages over the chunks sorted by index, average and
`Math.round` the removed percentage, group the filtered categories by name in
first-seen order, and flat-map the main-content timestamps through the
absolute-time translation. The empty-input case (a JavaScript `NaN`
percentage from `0 / 0`) is outside this model; every claim about the merger
assumes at least one chunk. -/
def mergeContentMetadata (chunks : List ChunkResult) : ContentMetadata :=
  let sortedChunks := sortChunks chunks
  let totalOriginalSeconds :=
    sortedChunks.foldl (fun acc c => acc + parseDuration c.result.content_metadata.original_duration_estimate) 0
  let totalEssentialSeconds :=
    sortedChunks.foldl (fun acc c => acc + parseDuration c.result.content_metadata.essential_content_duration) 0
  let totalRemovedPercentage : ℚ :=
    sortedChunks.foldl (fun acc c => acc + c.result.content_metadata.content_removed_percentage) 0
  let avgRemovedPercentage : ℚ := (jsRound (totalRemovedPercentage / (sortedChunks.length : ℚ)) : ℚ)
  let categoryEntries :=
    sortedChunks.foldl (fun acc c => c.result.content_metadata.filtered_categories.foldl addCategory acc) []
  let mergedCategories := categoryEntries.map fun e =>
    { category := e.1, description := e.2.1, approximate_duration := formatDuration e.2.2 : FilteredCategory }
  let mergedTimestamps := sortedChunks.flatMap fun chunk =>
    chunk.result.content_metadata.main_content_timestamps.map fun ts =>
      { start := adjustTimestamp ts.start chunk.chunkStartOffset
        «end» := adjustTimestamp ts.«end» chunk.chunkStartOffset
        description := ts.description : MainTimestamp }
  { original_duration_estimate := formatDuration totalOriginalSeconds
    essential_content_duration := formatDuration totalEssentialSeconds
    content_removed_percentage := avgRemovedPercentage
    filtered_categories := mergedCategories
    main_content_timestamps := mergedTimestamps }

/-- Embeds `mergeChunkResults` (resultMerger.ts lines 46-93): sort by chunk
index, concatenate scripts with a continuation header, translate every
chapter timestamp by the owning chunk's start offset, deduplicate concepts
and practice items, aggregate the metadata, and build the combined summary. -/
def mergeChunkResults (chunkResults : List ChunkResult) : VideoAnalysisResult :=
  let sortedChunks := sortChunks chunkResults
  let mergedScript := String.join <| sortedChunks.enum.map fun p =>
    let header := if p.1 = 0 then "" else
      "\n\n--- Continuing from " ++ secondsToTimestamp p.2.chunkStartOffset ++ " ---\n\n"
    header ++ p.2.result.clean_script
  let mergedChapters := sortedChunks.flatMap fun chunk =>
    chunk.result.chapters.map fun chapter =>
      { chapter with
        start_time := adjustTimestamp chapter.start_time chunk.chunkStartOffset
        end_time := adjustTimestamp chapter.end_time chunk.chunkStartOffset }
  let mergedConcepts := deduplicateArray (sortedChunks.flatMap fun chunk => chunk.result.important_concepts)
  let mergedPractice := deduplicateArray (sortedChunks.flatMap fun chunk => chunk.result.recommended_practice)
  let mergedMetadata := mergeContentMetadata sortedChunks
  let chunkSummaries := String.intercalate "\n\n" <| sortedChunks.enum.map fun p =>
    "Part " ++ natToString (p.1 + 1) ++ " (" ++ secondsToTimestamp p.2.chunkStartOffset ++
      " onwards): " ++ p.2.result.full_session_summary
  let mergedSummary := "This session was processed in " ++ natToString sortedChunks.length ++
    " parts:\n\n" ++ chunkSummaries
  { clean_script := mergedScript
    chapters := mergedChapters
    full_session_summary := mergedSummary
    important_concepts := mergedConcepts
    recommended_practice := mergedPractice
    content_metadata := mergedMetadata }

/-! ### apiKeyPool (src/unnamed/part_004) -/

/-- Per-key bookkeeping record (`interface ApiKeyStatus`). -/
structure ApiKeyStatus where
  key : String
  isAvailable : Bool
  lastUsed : ℚ
  requestCount : ℕ
  errorCount : ℕ
  rateLimitedUntil : ℚ
deriving Repr, DecidableEq

/-- The mutable state of an `ApiKeyPool` instance: the key table, the
`activeRequests` map (insertion-ordered, as a JavaScript `Map`), the
per-key concurrency cap and rate-limit cooldown, and the length of the
(never-populated) `lockQueue`. -/
structure PoolState where
  keys : List ApiKeyStatus
  activeRequests : List (String × ℤ)
  maxConcurrentPerKey : ℕ
  rateLimitCooldownMs : ℚ
  lockQueue : ℕ
deriving Repr, DecidableEq

/-- JavaScript `map.get(k) || 0` on the `activeRequests` map: the first
binding for the key, or 0 when the key is absent. -/
def mapGet : List (String × ℤ) → String → ℤ
  | [], _ => 0
  | p :: rest, k => if p.1 = k then p.2 else mapGet rest k

/-- JavaScript `map.set(k, v)`: overwrite in place, or append a new binding. -/
def mapSet : List (String × ℤ) → String → ℤ → List (String × ℤ)
  | [], k, v => [(k, v)]
  | p :: rest, k, v =>
    if p.1 = k then (k, v) :: rest else p :: mapSet rest k v

/-- The load score computed at part_004 line 140:
`activeCount * 1000 + keyStatus.lastUsed / 1000000`. -/
def keyLoad (activeCount : ℤ) (lastUsed : ℚ) : ℚ :=
  (activeCount : ℚ) * 1000 + lastUsed / 1000000

/-- The selection loop of `tryAcquireKey` (part_004 lines 125-145): walk the
key table, skip rate-limited keys (`rateLimitedUntil > now`) and fully loaded
keys (`activeCount >= maxConcurrentPerKey`), and keep the index of the
strictly lowest load seen so far (`none` plays the role of the initial
`Infinity`). -/
def findBestAux (now : ℚ) (cap : ℕ) (act : String → ℤ) :
    List (ℕ × ApiKeyStatus) → Option (ℕ × ℚ) → Option (ℕ × ℚ)
  | [], best => best
  | (i, k) :: rest, best =>
    if k.rateLimitedUntil > now then findBestAux now cap act rest best
    else
      let activeCount := act k.key
      if activeCount ≥ (cap : ℤ) then findBestAux now cap act rest best
      else
        let load := keyLoad activeCount k.lastUsed
        match best with
        | none => findBestAux now cap act rest (some (i, load))
        | some (j, l) =>
          if load < l then findBestAux now cap act rest (some (i, load))
          else findBestAux now cap act rest (some (j, l))

/-- Embeds `ApiKeyPool.tryAcquireKey` (part_004 lines 118-158): pick the best
eligible key by the load score; on selection set its `lastUsed` to `now`,
bump `requestCount`, and increment its `activeRequests` counter. `Date.now()`
is passed in as `now`. -/
def tryAcquireKey (now : ℚ) (s : PoolState) : Option (String × PoolState) :=
  match findBestAux now s.maxConcurrentPerKey (mapGet s.activeRequests) s.keys.enum none with
  | none => none
  | some (i, _) =>
    match s.keys.get? i with
    | none => none
    | some k =>
      let keys := s.keys.set i { k with lastUsed := now, requestCount := k.requestCount + 1 }
      let active := mapSet s.activeRequests k.key (mapGet s.activeRequests k.key + 1)
      some (k.key, { s with keys := keys, activeRequests := active })

/-- Bump `errorCount` on the first entry with the given key
(`keyStatus.errorCount++` on the result of `keys.find`). -/
def bumpErrorCount : List ApiKeyStatus → String → List ApiKeyStatus
  | [], _ => []
  | k :: rest, key =>
    if k.key = key then { k with errorCount := k.errorCount + 1 } :: rest
    else k :: bumpErrorCount rest key

/-- Embeds `ApiKeyPool.releaseKey` (part_004 lines 163-187): ignore unknown
keys; set the active counter to `max(0, count - 1)`; bump `errorCount` when
`hadError`; then, when the `lockQueue` is nonempty, acquire a key on behalf
of the waiting caller (the key stays acquired, the waiter is popped). The
source never pushes onto `lockQueue`, so the branch is dormant; `now` is the
`Date.now()` the inner `tryAcquireKey` would observe. -/
def releaseKey (now : ℚ) (key : String) (hadError : Bool) (s : PoolState) : PoolState :=
  match s.keys.find? (fun k => k.key = key) with
  | none => s
  | some _ =>
    let currentCount := mapGet s.activeRequests key
    let s₁ := { s with
      activeRequests := mapSet s.activeRequests key (max 0 (currentCount - 1))
      keys := if hadError then bumpErrorCount s.keys key else s.keys }
    if s₁.lockQueue ≠ 0 then
      match tryAcquireKey now s₁ with
      | some (_, s₂) => { s₂ with lockQueue := s₂.lockQueue - 1 }
      | none => s₁
    else s₁

/-- One pool operation of an acquire/release history. -/
inductive PoolOp where
  | acquire (now : ℚ)
  | release (now : ℚ) (key : String) (hadError : Bool)
deriving Repr, DecidableEq

/-- Apply one pool operation to the state (a failed acquire leaves the state
unchanged, a successful one keeps the selected key leased). -/
def poolStep (s : PoolState) : PoolOp → PoolState
  | .acquire now =>
    match tryAcquireKey now s with
    | some (_, s₁) => s₁
    | none => s
  | .release now key hadError => releaseKey now key hadError s

/-- Run a sequence of pool operations. -/
def poolRun (ops : List PoolOp) (s : PoolState) : PoolState :=
  ops.foldl poolStep s

/-- The credential-pool invariant of the specification: every credential's
in-flight counter lies between 0 and the per-credential cap. -/
def PoolInv (s : PoolState) : Prop :=
  ∀ k ∈ s.keys, 0 ≤ mapGet s.activeRequests k.key ∧
    mapGet s.activeRequests k.key ≤ (s.maxConcurrentPerKey : ℤ)

instance (s : PoolState) : Decidable (PoolInv s) :=
  inferInstanceAs (Decidable (∀ k ∈ s.keys, _ ∧ _))

/-! ### Parallel chunk scheduler (src/unnamed/part_003) -/

/-- The local `secondsToTimestamp` defined inside `createPlaceholderResult`
(part_003 lines 341-345): always `MM:SS`, with `m = floor(seconds / 60)`
(so minutes may exceed 59). -/
def placeholderTimestamp (seconds : ℚ) : String :=
  let m : ℤ := ⌊seconds / 60⌋
  let s : ℤ := ⌊jsRem seconds 60⌋
  String.mk (padStart2 (intRepr m) ++ ':' :: padStart2 (intRepr s))

/-- Embeds `createPlaceholderResult` (part_003 lines 340-367): the
minimally-valid analysis substituted for a failed chunk. -/
def createPlaceholderResult (chunk : ChunkMetadata) (error : String) : VideoAnalysisResult :=
  { clean_script := "[Content from " ++ placeholderTimestamp chunk.startTime ++ " to " ++
      placeholderTimestamp chunk.endTime ++ " - " ++ error ++ "]"
    chapters := [{
      title := "Segment " ++ natToString (chunk.index + 1)
      start_time := "00:00"
      end_time := placeholderTimestamp chunk.duration
      summary := "Processing failed: " ++ error
      key_points := ["Content unavailable"] }]
    full_session_summary := "Segment " ++ natToString (chunk.index + 1) ++
      " processing failed: " ++ error
    important_concepts := ["Analysis incomplete"]
    recommended_practice := ["Review this segment manually"]
    content_metadata := {
      original_duration_estimate := String.mk (intRepr ⌊chunk.duration / 60⌋) ++ " minutes"
      essential_content_duration := "Unknown"
      content_removed_percentage := 0
      filtered_categories := []
      main_content_timestamps := [] } }

/-- The per-chunk data flow of `processChunkWithKey` (part_003 lines
123-175): a successful analysis call yields a `ChunkResult` carrying the
chunk's index and start offset; a failing call is caught and replaced by the
placeholder analysis. The call itself (`callGeminiApi`) is abstracted as the
`outcome` oracle. -/
def processChunkWithKey (outcome : ChunkMetadata → Except String VideoAnalysisResult)
    (chunk : ChunkMetadata) : ChunkResult :=
  match outcome chunk with
  | .ok result =>
    { chunkIndex := chunk.index, chunkStartOffset := chunk.startTime, result := result }
  | .error e =>
    { chunkIndex := chunk.index, chunkStartOffset := chunk.startTime
      result := createPlaceholderResult chunk e }

/-- Embeds the result data flow of `processChunksInParallel` (part_003 lines
54-194): every chunk is driven through `processChunkWithKey` (the pool's
scheduling, progress reporting and per-key file-URI table are orchestration
that does not change the returned data), and the collected results are sorted
by chunk index (line 187) with a stable sort. -/
def processChunksInParallel (chunks : List ChunkMetadata)
    (outcome : ChunkMetadata → Except String VideoAnalysisResult) : List ChunkResult :=
  List.insertionSort (fun a b => a.chunkIndex ≤ b.chunkIndex)
    (chunks.map (processChunkWithKey outcome))

/-! ### waitForFileReady (src/src/app/api/process-video/route.ts lines 1084-1138) -/

/-- One poll of the file-status endpoint: either a well-formed response with
its `state` string and optional `error.message`, or a failed check (an HTTP
error status or a thrown fetch error), which the loop just retries. -/
inductive PollResult where
  | ok (state : String) (errorMessage : Option String)
  | failedCheck
deriving Repr, DecidableEq

/-- Terminal outcome of the wait loop. `sleeps` counts the 2-second pauses
taken before returning, so the elapsed waiting time is `2 * sleeps` seconds
(the loop sleeps after every non-terminal check and times out after
`maxAttempts` of them). -/
inductive WaitOutcome where
  | success (sleeps : ℕ)
  | failed (message : String) (sleeps : ℕ)
  | timedOut (sleeps : ℕ)
deriving Repr, DecidableEq

/-- The attempt bound computed at route.ts lines 1089-1092:
`fileSizeMB = fileSizeBytes ? fileSizeBytes / (1024*1024) : 100` (JS falsy
default), `baseAttempts = 45`, `additionalAttempts = ceil(fileSizeMB/10) * 9`,
`maxAttempts = min(450, baseAttempts + additionalAttempts)`. -/
def maxAttemptsFor (fileSizeBytes : Option ℚ) : ℕ :=
  let fileSizeMB : ℚ :=
    match fileSizeBytes with
    | some b => if b = 0 then 100 else b / (1024 * 1024)
    | none => 100
  let baseAttempts : ℤ := 45
  let additionalAttempts : ℤ := ⌈fileSizeMB / 10⌉ * 9
  (min 450 (baseAttempts + additionalAttempts)).toNat

/-- The polling loop body (route.ts lines 1101-1135): state `ACTIVE` returns
success; state `FAILED` throws with the service's `error.message` (default
`Unknown error`); any other state or a failed check sleeps 2 seconds and
retries until the attempts are exhausted. -/
def waitLoop (poll : ℕ → PollResult) : ℕ → ℕ → WaitOutcome
  | i, 0 => .timedOut i
  | i, r + 1 =>
    match poll i with
    | .ok st errMsg =>
      if st = "ACTIVE" then .success i
      else if st = "FAILED" then
        .failed ("File processing failed on Gemini: " ++ errMsg.getD "Unknown error") i
      else waitLoop poll (i + 1) r
    | .failedCheck => waitLoop poll (i + 1) r

/-- Embeds `waitForFileReady`: run the polling loop with the size-derived
attempt bound. -/
def waitForFileReady (poll : ℕ → PollResult) (fileSizeBytes : Option ℚ) : WaitOutcome :=
  waitLoop poll 0 (maxAttemptsFor fileSizeBytes)

/-! ### Job queue (src/src/queue/videoQueue.ts) and types (src/unnamed/part_010) -/

/-- The queued job payload (`interface VideoJob`). -/
structure VideoJob where
  chatId : ℤ
  messageId : ℤ
  videoPath : String
  fileName : String
  fileSize : ℚ
  mimeType : String
  apiProvider : String
  model : String
  userId : ℤ
  username : Option String
  addedAt : ℚ
deriving Repr, DecidableEq

/-- JavaScript `array.findIndex`, with `none` for the `-1` not-found result. -/
def jsFindIndex (p : ℕ × VideoJob → Bool) : List (ℕ × VideoJob) → Option ℕ
  | [] => none
  | x :: rest => if p x then some 0 else (jsFindIndex p rest).map (· + 1)

/-- Embeds `getJobPosition` (videoQueue.ts lines 150-156): the 1-based index
of the job in the waiting list, or 0 when absent. The waiting list is the
durable store's FIFO of `(jobId, job)` entries in enqueue order. -/
def getJobPosition (waiting : List (ℕ × VideoJob)) (jobId : ℕ) : ℕ :=
  match jsFindIndex (fun p => p.1 = jobId) waiting with
  | some index => index + 1
  | none => 0

/-- Embeds `addVideoJob` (videoQueue.ts lines 120-145): reject with the
queue-full error when `waitingCount >= maxQueueSize`
(`maxQueueSize = parseInt(MAX_QUEUE_SIZE || 10)`), otherwise append the job
(BullMQ `queue.add` with FIFO order, the fresh `jobId` modelled as a
parameter) and report `getJobPosition` of the new job. -/
def addVideoJob (maxQueueSize : ℕ) (waiting : List (ℕ × VideoJob)) (newId : ℕ)
    (job : VideoJob) : Except String (List (ℕ × VideoJob) × ℕ) :=
  if waiting.length ≥ maxQueueSize then
    .error ("Queue is full (" ++ natToString waiting.length ++ "/" ++
      natToString maxQueueSize ++ "). Please try again later.")
  else
    let waiting₁ := waiting ++ [(newId, job)]
    .ok (waiting₁, getJobPosition waiting₁ newId)

/-- Submit a batch of jobs in sequence with no worker draining the queue
(fresh ids `nextId, nextId+1, ...`), recording which submissions succeed. -/
def submitAll (maxQueueSize : ℕ) : List VideoJob → ℕ → List (ℕ × VideoJob) → List Bool
  | [], _, _ => []
  | job :: rest, nextId, waiting =>
    match addVideoJob maxQueueSize waiting nextId job with
    | .ok (waiting₁, _) => true :: submitAll maxQueueSize rest (nextId + 1) waiting₁
    | .error _ => false :: submitAll maxQueueSize rest (nextId + 1) waiting

/-! ### Intake handler (src/unnamed/part_013) and worker (src/src/queue/worker.ts) -/

/-- The fields of an incoming Telegram video or video document that
`handleVideoMessage` reads. -/
structure TgVideo where
  file_id : String
  file_name : Option String
  file_size : Option ℚ
  mime_type : Option String
deriving Repr, DecidableEq

/-- The message shapes `handleVideoMessage` distinguishes. -/
inductive TgMessage where
  | video (v : TgVideo)
  | document (d : TgVideo)
  | other
deriving Repr, DecidableEq

/-- The intake size limit (part_013 line 10):
`2000 * 1024 * 1024` bytes, i.e. 2 GB (the Telegram bot limit). -/
def MAX_FILE_SIZE : ℚ :=
  2000 * 1024 * 1024

/-- Outcome of the intake handler. -/
inductive HandleOutcome where
  | replyNotVideo
  | replyTooLarge
  | enqueue (fileId fileName : String) (fileSize : ℚ) (mimeType : String)
deriving Repr, DecidableEq

/-- Embeds the gate of `handleVideoMessage` (part_013 lines 21-55): extract
the file details from a video message or a document whose MIME type starts
with `video/` (anything else is answered with a please-send-a-video reply),
then reject with the too-large reply exactly when
`fileSize > MAX_FILE_SIZE`; otherwise the video is downloaded and enqueued
via `addVideoJob`. `now` stands in for the `Date.now()` used in the default
file name. This is the only size check on the intake path. -/
def handleVideoMessage (msg : TgMessage) (now : ℕ) : HandleOutcome :=
  match msg with
  | .video v =>
    let fileName := v.file_name.getD ("video_" ++ natToString now ++ ".mp4")
    let fileSize := v.file_size.getD 0
    let mimeType := v.mime_type.getD "video/mp4"
    if fileSize > MAX_FILE_SIZE then .replyTooLarge
    else .enqueue v.file_id fileName fileSize mimeType
  | .document d =>
    if (d.mime_type.getD "").startsWith "video/" then
      let fileName := d.file_name.getD ("video_" ++ natToString now ++ ".mp4")
      let fileSize := d.file_size.getD 0
      let mimeType := d.mime_type.getD "video/mp4"
      if fileSize > MAX_FILE_SIZE then .replyTooLarge
      else .enqueue d.file_id fileName fileSize mimeType
    else .replyNotVideo
  | .other => .replyNotVideo

/-- The size-dependent control flow of the worker's
`processVideoWithGemini` (worker.ts lines 74-114), the only place size
influences a leased job's processing: files over 10 MB go through the File
API path, smaller ones are inlined as base64. The two analysis calls are
abstracted as outcome parameters; neither branch rejects a job for its size,
and `processJob` (worker.ts lines 220-263) performs no size check at all. -/
def processVideoWithGemini (fileSizeBytes : ℚ)
    (inlineOutcome fileApiOutcome : Except String VideoAnalysisResult) :
    Except String VideoAnalysisResult :=
  let fileSizeMB := fileSizeBytes / (1024 * 1024)
  if fileSizeMB > 10 then fileApiOutcome else inlineOutcome

/-! ### Auxiliary predicates and fixtures used by the claim theorems -/

/-- A well-formed `MM:SS` or `HH:MM:SS` timestamp: splitting on `:` yields
exactly two or three nonempty all-digit components. -/
def wellFormedTimestamp (t : String) : Bool :=
  match splitOnColon t.toList with
  | [a, b] => !a.isEmpty && !b.isEmpty && a.all isDigitChar && b.all isDigitChar
  | [a, b, c] => !a.isEmpty && !b.isEmpty && !c.isEmpty &&
      a.all isDigitChar && b.all isDigitChar && c.all isDigitChar
  | _ => false

/-- Modelled from the spec: the merger sentence `original_duration_s = Σ
parse(chunk.original_duration_estimate); format back to HH:MM:SS` asks for an
unconditional three-component zero-padded rendering. Used only to compare the
specified format against the code's `formatDuration`. -/
def specHHMMSS (seconds : ℕ) : String :=
  String.mk (padStart2 (natRepr (seconds / 3600)) ++ ':' ::
    padStart2 (natRepr (seconds % 3600 / 60)) ++ ':' :: padStart2 (natRepr (seconds % 60)))

/-- A pool key that was used once at epoch-millisecond 1700000000000 and has
nothing in flight. -/
def keyA : ApiKeyStatus :=
  { key := "A", isAvailable := true, lastUsed := 1700000000000,
    requestCount := 1, errorCount := 0, rateLimitedUntil := 0 }

/-- A pool key never used since startup (`lastUsed = 0`) with one request in
flight. -/
def keyB : ApiKeyStatus :=
  { key := "B", isAvailable := true, lastUsed := 0,
    requestCount := 1, errorCount := 0, rateLimitedUntil := 0 }

/-- A two-key pool state at a realistic clock: key `A` is idle, key `B` has
one request in flight. -/
def poolC1 : PoolState where
  keys := [keyA, keyB]
  activeRequests := [("A", 0), ("B", 1)]
  maxConcurrentPerKey := 3
  rateLimitCooldownMs := 60000
  lockQueue := 0

/-- The `Date.now()` instant used with `poolC1`. -/
def nowC1 : ℚ := 1700000001000

/-- A minimal analysis document used as a concrete successful outcome. -/
def sampleAnalysis : VideoAnalysisResult :=
  { clean_script := "script"
    chapters := [{ title := "Intro", start_time := "05:00", end_time := "90:00",
                   summary := "sum", key_points := ["k"] }]
    full_session_summary := "summary"
    important_concepts := ["modularity"]
    recommended_practice := ["practice"]
    content_metadata :=
      { original_duration_estimate := "01:00"
        essential_content_duration := "Unknown"
        content_removed_percentage := 30
        filtered_categories := []
        main_content_timestamps := [] } }

/-- A chunk-result fixture with the given index, offset, duration estimate
and removed percentage. -/
def chunkResultWith (idx : ℕ) (off : ℚ) (dur : String) (pct : ℚ) : ChunkResult :=
  { chunkIndex := idx
    chunkStartOffset := off
    result := { sampleAnalysis with
      content_metadata := { sampleAnalysis.content_metadata with
        original_duration_estimate := dur
        content_removed_percentage := pct } } }

/-- A queued-job fixture. -/
def sampleJob : VideoJob :=
  { chatId := 1, messageId := 2, videoPath := "/tmp/v.mp4", fileName := "v.mp4",
    fileSize := 5, mimeType := "video/mp4", apiProvider := "gemini",
    model := "gemini-2.0-flash", userId := 7, username := none, addedAt := 0 }

/-- The 20-minute chunk used in the scheduler fixtures. -/
def sampleChunk : ChunkMetadata :=
  { index := 3, startTime := 3600, endTime := 4805, duration := 1205,
    fileName := "chunk_3.mp4" }

/-- A single-key pool used to instantiate the pool theorems on concrete
inputs (with one key the selection loop never compares two load scores, so
the whole acquisition kernel-evaluates). -/
def poolW : PoolState where
  keys := [{ key := "K", isAvailable := true, lastUsed := 0,
             requestCount := 0, errorCount := 0, rateLimitedUntil := 0 }]
  activeRequests := [("K", 0)]
  maxConcurrentPerKey := 3
  rateLimitCooldownMs := 60000
  lockQueue := 0

/-- The state of `poolW` after acquiring its key at time 5. -/
def poolWAfter : PoolState where
  keys := [{ key := "K", isAvailable := true, lastUsed := 5,
             requestCount := 1, errorCount := 0, rateLimitedUntil := 0 }]
  activeRequests := [("K", 1)]
  maxConcurrentPerKey := 3
  rateLimitCooldownMs := 60000
  lockQueue := 0

/-- Two chunk results (listed out of order) with well-formed chapter
timestamps and natural start offsets, used to instantiate the merger
theorems. -/
def crsC3 : List ChunkResult :=
  [chunkResultWith 1 (((1200 : ℕ) : ℚ)) "01:00" 40,
   chunkResultWith 0 (((0 : ℕ) : ℚ)) "01:00" 30]

/-- A zero-index chunk used alongside `sampleChunk` in the scheduler
fixtures. -/
def chunkZero : ChunkMetadata :=
  { index := 0, startTime := 0, endTime := 1205, duration := 1205, fileName := "chunk_0.mp4" }

/-- A call oracle that fails exactly on chunk index 3 (the index of
`sampleChunk`) with reason `boom` and succeeds elsewhere. -/
def oracleC4 (c : ChunkMetadata) : Except String VideoAnalysisResult :=
  if c.index = 3 then .error "boom" else .ok sampleAnalysis

/-! ### Lemmas about the decimal and timestamp primitives -/

theorem charVal_digitChar (d : ℕ) (hd : d < 10) : charVal (digitChar d) = d := by
  interval_cases d <;> rfl

theorem isDigitChar_digitChar (d : ℕ) (hd : d < 10) : isDigitChar (digitChar d) = true := by
  interval_cases d <;> rfl

theorem natReprAux_congr : ∀ f₁ f₂ n, n < f₁ → n < f₂ → natReprAux f₁ n = natReprAux f₂ n := by
  intro f₁
  induction f₁ with
  | zero => intro f₂ n h₁ _; omega
  | succ f ih =>
    intro f₂ n h₁ h₂
    match f₂, h₂ with
    | g + 1, h₂ =>
      simp only [natReprAux]
      by_cases h10 : n < 10
      · simp [h10]
      · simp only [h10, if_false]
        rw [ih g (n / 10) (by omega) (by omega)]

theorem natRepr_unfold (n : ℕ) :
    natRepr n = if n < 10 then [digitChar n] else natRepr (n / 10) ++ [digitChar (n % 10)] := by
  show (if n < 10 then [digitChar n] else natReprAux n (n / 10) ++ [digitChar (n % 10)]) = _
  by_cases h10 : n < 10
  · simp [h10]
  · simp only [h10, if_false]
    unfold natRepr
    exact congrArg (· ++ [digitChar (n % 10)])
      (natReprAux_congr n (n / 10 + 1) (n / 10) (by omega) (by omega))

theorem natRepr_ne_nil (n : ℕ) : natRepr n ≠ [] := by
  rw [natRepr_unfold]
  by_cases h10 : n < 10 <;> simp [h10]

theorem natRepr_all_digits (n : ℕ) : (natRepr n).all isDigitChar = true := by
  induction n using Nat.strong_induction_on with
  | _ n ih =>
    rw [natRepr_unfold]
    by_cases h10 : n < 10
    · simp [h10, isDigitChar_digitChar n h10]
    · simp only [h10, if_false, List.all_append]
      rw [ih (n / 10) (by omega)]
      simp [isDigitChar_digitChar (n % 10) (by omega)]

theorem digitsVal_append_singleton (l : List Char) (c : Char) :
    digitsVal (l ++ [c]) = digitsVal l * 10 + charVal c := by
  simp [digitsVal, List.foldl_append]

theorem digitsVal_natRepr (n : ℕ) : digitsVal (natRepr n) = n := by
  induction n using Nat.strong_induction_on with
  | _ n ih =>
    rw [natRepr_unfold]
    by_cases h10 : n < 10
    · simp [h10, digitsVal, charVal_digitChar n h10]
    · simp only [h10, if_false]
      rw [digitsVal_append_singleton, ih (n / 10) (by omega),
        charVal_digitChar (n % 10) (by omega)]
      omega

theorem digitsVal_cons_zero (l : List Char) : digitsVal ('0' :: l) = digitsVal l := by
  simp [digitsVal]
  rfl

theorem digitsVal_padStart2 (l : List Char) : digitsVal (padStart2 l) = digitsVal l := by
  unfold padStart2
  rcases h : 2 - l.length with _ | k
  · simp
  · rcases k with _ | k
    · simpa [List.replicate] using digitsVal_cons_zero l
    · rcases k with _ | k
      · simpa [List.replicate] using (digitsVal_cons_zero _).trans (digitsVal_cons_zero l)
      · omega

theorem padStart2_all_digits (l : List Char) (h : l.all isDigitChar = true) :
    (padStart2 l).all isDigitChar = true := by
  unfold padStart2
  simp [List.all_append, h]
  exact Or.inr rfl

theorem padStart2_ne_nil (l : List Char) (h : l ≠ []) : padStart2 l ≠ [] := by
  unfold padStart2
  simp [h]

theorem digit_ne_colon (c : Char) (h : isDigitChar c = true) : c ≠ ':' := by
  intro heq
  subst heq
  simp [isDigitChar] at h

theorem splitOnColon_ne_nil (cs : List Char) : splitOnColon cs ≠ [] := by
  match cs with
  | [] => simp [splitOnColon]
  | c :: rest =>
    simp only [splitOnColon]
    by_cases h : c = ':'
    · simp [h]
    · simp only [h, if_false]
      match hs : splitOnColon rest with
      | [] => simp
      | p :: ps => simp

theorem splitOnColon_no_colon (cs : List Char) (h : ∀ c ∈ cs, c ≠ ':') :
    splitOnColon cs = [cs] := by
  induction cs with
  | nil => rfl
  | cons c rest ih =>
    have hc : c ≠ ':' := h c (by simp)
    have hrest := ih (fun x hx => h x (by simp [hx]))
    simp only [splitOnColon, hc, if_false, hrest]

theorem splitOnColon_append (a rest : List Char) (h : ∀ c ∈ a, c ≠ ':') :
    splitOnColon (a ++ ':' :: rest) = a :: splitOnColon rest := by
  induction a with
  | nil => simp [splitOnColon]
  | cons c a ih =>
    have hc : c ≠ ':' := h c (by simp)
    have ha := ih (fun x hx => h x (by simp [hx]))
    show (if c = ':' then [] :: splitOnColon (a ++ ':' :: rest)
      else match splitOnColon (a ++ ':' :: rest) with
        | [] => [[c]]
        | p :: ps => (c :: p) :: ps) = _
    rw [if_neg hc, ha]

theorem jsNumberChars_digits (cs : List Char) (h1 : cs ≠ [])
    (h2 : cs.all isDigitChar = true) : jsNumberChars cs = some ((digitsVal cs : ℚ)) := by
  simp [jsNumberChars, h1, h2]

theorem ratTrunc_of_nonneg (q : ℚ) (h : 0 ≤ q) : ratTrunc q = ⌊q⌋ := by
  unfold ratTrunc
  rw [if_neg (not_lt.2 h)]

theorem floor_natCast_div (n d : ℕ) : ⌊(n : ℚ) / (d : ℚ)⌋ = ((n / d : ℕ) : ℤ) := by
  rw [Rat.floor_natCast_div_natCast]
  exact (Int.ofNat_div n d).symm

theorem jsRem_natCast (n d : ℕ) : jsRem (n : ℚ) (d : ℚ) = ((n % d : ℕ) : ℚ) := by
  unfold jsRem
  rw [ratTrunc_of_nonneg _ (by positivity), floor_natCast_div]
  have h : d * (n / d) + n % d = n := Nat.div_add_mod n d
  have h2 : ((d : ℚ)) * (((n / d : ℕ) : ℤ) : ℚ) + ((n % d : ℕ) : ℚ) = ((n : ℕ) : ℚ) := by
    rw [Int.cast_natCast]
    have h3 := congrArg (fun x : ℕ => (x : ℚ)) h
    push_cast at h3
    linarith
  linarith

theorem intRepr_natCast (k : ℕ) : intRepr (k : ℤ) = natRepr k := by
  unfold intRepr
  rw [if_neg (by omega), Int.toNat_natCast]

theorem secondsToTimestamp_natCast (n : ℕ) :
    secondsToTimestamp (n : ℚ) =
      if 3600 ≤ n then
        String.mk (padStart2 (natRepr (n / 3600)) ++ ':' ::
          (padStart2 (natRepr (n % 3600 / 60)) ++ ':' :: padStart2 (natRepr (n % 60))))
      else
        String.mk (padStart2 (natRepr (n % 3600 / 60)) ++ ':' :: padStart2 (natRepr (n % 60))) := by
  unfold secondsToTimestamp
  have e3600 : ((3600 : ℚ)) = ((3600 : ℕ) : ℚ) := by norm_num
  have e60 : ((60 : ℚ)) = ((60 : ℕ) : ℚ) := by norm_num
  have h1 : ⌊(n : ℚ) / 3600⌋ = ((n / 3600 : ℕ) : ℤ) := by
    rw [e3600, floor_natCast_div]
  have h2 : jsRem (n : ℚ) 3600 = ((n % 3600 : ℕ) : ℚ) := by
    rw [e3600, jsRem_natCast]
  have h3 : ⌊jsRem (n : ℚ) 3600 / 60⌋ = ((n % 3600 / 60 : ℕ) : ℤ) := by
    rw [h2, e60, floor_natCast_div]
  have h4 : ⌊jsRem (n : ℚ) 60⌋ = ((n % 60 : ℕ) : ℤ) := by
    rw [e60, jsRem_natCast, Int.floor_natCast]
  have hcond : (((n / 3600 : ℕ) : ℤ) > 0) ↔ 3600 ≤ n := by omega
  simp only [h1, h3, h4, intRepr_natCast, hcond, List.cons_append]
  by_cases hc : 3600 ≤ n
  · rw [if_pos hc, if_pos hc]
    congr 1
    simp [List.cons_append]
  · rw [if_neg hc, if_neg hc]

theorem timestampToSeconds_roundTrip (n : ℕ) :
    timestampToSeconds (secondsToTimestamp (n : ℚ)) = some ((n : ℕ) : ℚ) := by
  rw [secondsToTimestamp_natCast]
  have pad_digits : ∀ k : ℕ, (padStart2 (natRepr k)).all isDigitChar = true :=
    fun k => padStart2_all_digits _ (natRepr_all_digits k)
  have pad_ne_nil : ∀ k : ℕ, padStart2 (natRepr k) ≠ [] :=
    fun k => padStart2_ne_nil _ (natRepr_ne_nil k)
  have pad_no_colon : ∀ k : ℕ, ∀ c ∈ padStart2 (natRepr k), c ≠ ':' := by
    intro k c hc
    have hd := pad_digits k
    rw [List.all_eq_true] at hd
    exact digit_ne_colon c (hd c hc)
  have pad_val : ∀ k : ℕ, digitsVal (padStart2 (natRepr k)) = k :=
    fun k => (digitsVal_padStart2 _).trans (digitsVal_natRepr k)
  by_cases hc : 3600 ≤ n
  · rw [if_pos hc]
    unfold timestampToSeconds
    rw [show (String.mk (padStart2 (natRepr (n / 3600)) ++ ':' ::
        (padStart2 (natRepr (n % 3600 / 60)) ++ ':' :: padStart2 (natRepr (n % 60))))).toList =
        padStart2 (natRepr (n / 3600)) ++ ':' ::
          (padStart2 (natRepr (n % 3600 / 60)) ++ ':' :: padStart2 (natRepr (n % 60))) from rfl]
    rw [splitOnColon_append _ _ (pad_no_colon _),
      splitOnColon_append _ _ (pad_no_colon _),
      splitOnColon_no_colon _ (pad_no_colon _)]
    simp only [List.map_cons, List.map_nil,
      jsNumberChars_digits _ (pad_ne_nil _) (pad_digits _), pad_val]
    show some (((n / 3600 : ℕ) : ℚ) * 3600 + ((n % 3600 / 60 : ℕ) : ℚ) * 60 + ((n % 60 : ℕ) : ℚ)) =
      some ((n : ℕ) : ℚ)
    have key : n / 3600 * 3600 + n % 3600 / 60 * 60 + n % 60 = n := by omega
    congr 1
    exact_mod_cast congrArg (fun x : ℕ => (x : ℚ)) key
  · rw [if_neg hc]
    unfold timestampToSeconds
    rw [show (String.mk (padStart2 (natRepr (n % 3600 / 60)) ++ ':' ::
        padStart2 (natRepr (n % 60)))).toList =
        padStart2 (natRepr (n % 3600 / 60)) ++ ':' :: padStart2 (natRepr (n % 60)) from rfl]
    rw [splitOnColon_append _ _ (pad_no_colon _),
      splitOnColon_no_colon _ (pad_no_colon _)]
    simp only [List.map_cons, List.map_nil,
      jsNumberChars_digits _ (pad_ne_nil _) (pad_digits _), pad_val]
    show some (((n % 3600 / 60 : ℕ) : ℚ) * 60 + ((n % 60 : ℕ) : ℚ)) = some ((n : ℕ) : ℚ)
    have key : n % 3600 / 60 * 60 + n % 60 = n := by omega
    congr 1
    exact_mod_cast congrArg (fun x : ℕ => (x : ℚ)) key

theorem isEmpty_false_ne_nil {l : List Char} (h : l.isEmpty = false) : l ≠ [] := by
  cases l <;> simp_all

theorem wellFormed_parse (t : String) (h : wellFormedTimestamp t = true) :
    ∃ v : ℕ, timestampToSeconds t = some ((v : ℚ)) := by
  unfold wellFormedTimestamp at h
  unfold timestampToSeconds
  rw [show t.toList = t.data from rfl] at h ⊢
  rcases hs : splitOnColon t.data with _ | ⟨a, rest⟩
  · rw [hs] at h; simp at h
  rcases rest with _ | ⟨b, rest2⟩
  · rw [hs] at h; simp at h
  rcases rest2 with _ | ⟨c, rest3⟩
  · rw [hs] at h
    simp only [Bool.and_eq_true, Bool.not_eq_true'] at h
    obtain ⟨⟨⟨ha, hb⟩, ha2⟩, hb2⟩ := h
    simp only [List.map_cons, List.map_nil,
      jsNumberChars_digits a (isEmpty_false_ne_nil ha) ha2,
      jsNumberChars_digits b (isEmpty_false_ne_nil hb) hb2]
    refine ⟨digitsVal a * 60 + digitsVal b, ?_⟩
    congr 1
    push_cast
    ring
  rcases rest3 with _ | ⟨d, rest4⟩
  · rw [hs] at h
    simp only [Bool.and_eq_true, Bool.not_eq_true'] at h
    obtain ⟨⟨⟨⟨⟨ha, hb⟩, hc⟩, ha2⟩, hb2⟩, hc2⟩ := h
    simp only [List.map_cons, List.map_nil,
      jsNumberChars_digits a (isEmpty_false_ne_nil ha) ha2,
      jsNumberChars_digits b (isEmpty_false_ne_nil hb) hb2,
      jsNumberChars_digits c (isEmpty_false_ne_nil hc) hc2]
    refine ⟨digitsVal a * 3600 + digitsVal b * 60 + digitsVal c, ?_⟩
    congr 1
    push_cast
    ring
  · rw [hs] at h; simp at h

theorem adjustTimestamp_wellFormed (t : String) (off : ℕ) (h : wellFormedTimestamp t = true) :
    ∃ v : ℕ, timestampToSeconds t = some ((v : ℚ)) ∧
      timestampToSeconds (adjustTimestamp t ((off : ℚ))) = some (((v : ℚ)) + off) := by
  obtain ⟨v, hv⟩ := wellFormed_parse t h
  refine ⟨v, hv, ?_⟩
  unfold adjustTimestamp
  rw [hv]
  show timestampToSeconds (secondsToTimestamp ((v : ℚ) + (off : ℚ))) = some (((v : ℚ)) + off)
  rw [show ((v : ℚ) + (off : ℚ)) = (((v + off : ℕ)) : ℚ) by push_cast; ring,
    timestampToSeconds_roundTrip]

/-! ### Claim theorems -/

/-- C10: `timestampToSeconds` is total with a silent zero default — any input
that does not split on `:` into exactly two or three parts parses to `0`, so
adjusting such a malformed timestamp by a chunk offset yields the formatted
offset itself (the chunk boundary). -/
theorem timestampToSeconds_malformed_default (t : String) (off : ℚ)
    (h2 : (splitOnColon t.toList).length ≠ 2) (h3 : (splitOnColon t.toList).length ≠ 3) :
    timestampToSeconds t = some 0 ∧ adjustTimestamp t off = secondsToTimestamp off := by
  have hts : timestampToSeconds t = some 0 := by
    unfold timestampToSeconds
    rcases hs : splitOnColon t.toList with _ | ⟨a, _ | ⟨b, _ | ⟨c, _ | ⟨d, rest⟩⟩⟩⟩
    · simp
    · simp
    · rw [hs] at h2; simp at h2
    · rw [hs] at h3; simp at h3
    · simp
  refine ⟨hts, ?_⟩
  unfold adjustTimestamp
  rw [hts]
  show secondsToTimestamp (0 + off) = secondsToTimestamp off
  rw [zero_add]

/-- C10 witness: the malformed timestamp `garbage` collapses to the chunk
boundary. -/
theorem timestampToSeconds_malformed_default_witness :
    (splitOnColon ("garbage").toList).length ≠ 2 ∧
      (splitOnColon ("garbage").toList).length ≠ 3 ∧
      (timestampToSeconds "garbage" = some 0 ∧
        adjustTimestamp "garbage" 125 = secondsToTimestamp 125) :=
  ⟨by decide, by decide,
    timestampToSeconds_malformed_default "garbage" 125 (by decide) (by decide)⟩

/-- C3: merging rewrites every chapter timestamp through `adjustTimestamp`,
and for well-formed `MM:SS`/`HH:MM:SS` chapter times with natural-number
chunk offsets the absolute time parses back to the original relative seconds
plus the owning chunk's offset — subtracting `chunk_start_offset`
reconstructs the original relative timestamp exactly. -/
theorem mergeChunkResults_roundTrip (chunkResults : List ChunkResult)
    (hwf : ∀ cr ∈ chunkResults, ∀ ch ∈ cr.result.chapters,
      wellFormedTimestamp ch.start_time = true ∧ wellFormedTimestamp ch.end_time = true)
    (hoff : ∀ cr ∈ chunkResults, ∃ k : ℕ, cr.chunkStartOffset = ((k : ℚ))) :
    (mergeChunkResults chunkResults).chapters =
      (sortChunks chunkResults).flatMap (fun cr => cr.result.chapters.map (fun ch =>
        { ch with start_time := adjustTimestamp ch.start_time cr.chunkStartOffset,
                  end_time := adjustTimestamp ch.end_time cr.chunkStartOffset })) ∧
    ∀ cr ∈ chunkResults, ∀ ch ∈ cr.result.chapters,
      ∃ vs ve : ℕ, timestampToSeconds ch.start_time = some ((vs : ℚ)) ∧
        timestampToSeconds ch.end_time = some ((ve : ℚ)) ∧
        timestampToSeconds (adjustTimestamp ch.start_time cr.chunkStartOffset) =
          some ((vs : ℚ) + cr.chunkStartOffset) ∧
        timestampToSeconds (adjustTimestamp ch.end_time cr.chunkStartOffset) =
          some ((ve : ℚ) + cr.chunkStartOffset) := by
  constructor
  · rfl
  · intro cr hcr ch hch
    obtain ⟨hws, hwe⟩ := hwf cr hcr ch hch
    obtain ⟨k, hk⟩ := hoff cr hcr
    obtain ⟨vs, hvs, hadjs⟩ := adjustTimestamp_wellFormed ch.start_time k hws
    obtain ⟨ve, hve, hadje⟩ := adjustTimestamp_wellFormed ch.end_time k hwe
    exact ⟨vs, ve, hvs, hve, by rw [hk]; exact hadjs, by rw [hk]; exact hadje⟩

/-- C3 witness: the round trip holds on a concrete two-chunk merge. -/
theorem mergeChunkResults_roundTrip_witness :
    (mergeChunkResults crsC3).chapters =
      (sortChunks crsC3).flatMap (fun cr => cr.result.chapters.map (fun ch =>
        { ch with start_time := adjustTimestamp ch.start_time cr.chunkStartOffset,
                  end_time := adjustTimestamp ch.end_time cr.chunkStartOffset })) ∧
    ∀ cr ∈ crsC3, ∀ ch ∈ cr.result.chapters,
      ∃ vs ve : ℕ, timestampToSeconds ch.start_time = some ((vs : ℚ)) ∧
        timestampToSeconds ch.end_time = some ((ve : ℚ)) ∧
        timestampToSeconds (adjustTimestamp ch.start_time cr.chunkStartOffset) =
          some ((vs : ℚ) + cr.chunkStartOffset) ∧
        timestampToSeconds (adjustTimestamp ch.end_time cr.chunkStartOffset) =
          some ((ve : ℚ) + cr.chunkStartOffset) :=
  mergeChunkResults_roundTrip crsC3 (by decide)
    (by
      intro cr hcr
      simp only [crsC3, List.mem_cons, List.not_mem_nil, or_false] at hcr
      rcases hcr with h | h
      · exact ⟨1200, by rw [h]; rfl⟩
      · exact ⟨0, by rw [h]; rfl⟩)

theorem jsFindIndex_append_fresh (waiting : List (ℕ × VideoJob)) (newId : ℕ) (job : VideoJob)
    (hfresh : ∀ p ∈ waiting, p.1 ≠ newId) :
    jsFindIndex (fun p => p.1 = newId) (waiting ++ [(newId, job)]) = some waiting.length := by
  induction waiting with
  | nil => simp [jsFindIndex]
  | cons q rest ih =>
    have hq : (q.1 == newId) = false := by
      have := hfresh q (by simp)
      simp [this]
    rw [List.cons_append]
    show (if (q.1 = newId : Bool) then some 0
      else (jsFindIndex (fun p => p.1 = newId) (rest ++ [(newId, job)])).map (· + 1)) = _
    rw [show ((q.1 = newId : Bool)) = (q.1 == newId) from rfl, hq]
    simp only [Bool.false_eq_true, if_false, ih (fun p hp => hfresh p (by simp [hp]))]
    simp

/-- C6: `addVideoJob` rejects with the queue-full error exactly when the
waiting count has reached `MAX_QUEUE_SIZE` (default 10), otherwise appends
the job and returns its 1-based position `W + 1` among the waiting jobs; and
submitting any batch of `max + 1` jobs into an empty queue with no worker
active accepts the first `max` and rejects the last. -/
theorem addVideoJob_spec (maxQueueSize : ℕ) (waiting : List (ℕ × VideoJob))
    (newId : ℕ) (job : VideoJob) (hfresh : ∀ p ∈ waiting, p.1 ≠ newId) :
    ((maxQueueSize ≤ waiting.length →
        ∃ e, addVideoJob maxQueueSize waiting newId job = .error e) ∧
      (waiting.length < maxQueueSize →
        addVideoJob maxQueueSize waiting newId job =
          .ok (waiting ++ [(newId, job)], waiting.length + 1))) ∧
    ∀ (max₂ : ℕ) (jobs : List VideoJob) (startId : ℕ), jobs.length = max₂ + 1 →
      submitAll max₂ jobs startId [] = List.replicate max₂ true ++ [false] := by
  constructor
  · constructor
    · intro hge
      refine ⟨"Queue is full (" ++ natToString waiting.length ++ "/" ++
        natToString maxQueueSize ++ "). Please try again later.", ?_⟩
      unfold addVideoJob
      rw [if_pos hge]
    · intro hlt
      unfold addVideoJob
      rw [if_neg (by omega)]
      show Except.ok (waiting ++ [(newId, job)],
        getJobPosition (waiting ++ [(newId, job)]) newId) = _
      unfold getJobPosition
      rw [jsFindIndex_append_fresh waiting newId job hfresh]
  · have key : ∀ (max₂ : ℕ) (jobs : List VideoJob) (startId : ℕ)
        (waiting₀ : List (ℕ × VideoJob)), waiting₀.length ≤ max₂ →
        submitAll max₂ jobs startId waiting₀ =
          List.replicate (min jobs.length (max₂ - waiting₀.length)) true ++
            List.replicate (jobs.length - (max₂ - waiting₀.length)) false := by
      intro max₂ jobs
      induction jobs with
      | nil => intro startId w _; simp [submitAll]
      | cons j rest ih =>
        intro startId w hw
        show (match addVideoJob max₂ w startId j with
          | .ok (w₁, _) => true :: submitAll max₂ rest (startId + 1) w₁
          | .error _ => false :: submitAll max₂ rest (startId + 1) w) = _
        by_cases hfull : max₂ ≤ w.length
        · unfold addVideoJob
          rw [if_pos hfull]
          show false :: submitAll max₂ rest (startId + 1) w = _
          have hw0 : max₂ - w.length = 0 := by omega
          rw [ih (startId + 1) w hw, hw0]
          simp only [Nat.min_zero, List.replicate_zero, List.nil_append, Nat.sub_zero,
            List.length_cons]
          rw [List.replicate_succ]
        · unfold addVideoJob
          rw [if_neg hfull]
          have hlt : w.length < max₂ := by omega
          show true :: submitAll max₂ rest (startId + 1) (w ++ [(startId, j)]) = _
          rw [ih (startId + 1) (w ++ [(startId, j)]) (by simp; omega)]
          have e1 : min (rest.length + 1) (max₂ - w.length) =
              min rest.length (max₂ - (w ++ [(startId, j)]).length) + 1 := by
            simp only [List.length_append, List.length_cons, List.length_nil]
            omega
          have e2 : rest.length + 1 - (max₂ - w.length) =
              rest.length - (max₂ - (w ++ [(startId, j)]).length) := by
            simp only [List.length_append, List.length_cons, List.length_nil]
            omega
          simp only [List.length_cons, e1, e2, List.replicate_succ, List.cons_append]
    intro max₂ jobs startId hlen
    rw [key max₂ jobs startId [] (by simp)]
    simp only [List.length_nil, Nat.sub_zero, hlen]
    rw [show min (max₂ + 1) max₂ = max₂ by omega, show max₂ + 1 - max₂ = 1 by omega,
      List.replicate_one]

/-- C6 witness: the single-step characterisation and the `MAX_QUEUE_SIZE + 1`
scenario at the default limit 10. -/
theorem addVideoJob_spec_witness :
    (addVideoJob 10 [] 0 sampleJob = .ok ([(0, sampleJob)], 1)) ∧
      submitAll 10 (List.replicate 11 sampleJob) 0 [] = List.replicate 10 true ++ [false] := by
  have h := addVideoJob_spec 10 [] 0 sampleJob (by simp)
  exact ⟨h.1.2 (by decide), h.2 10 (List.replicate 11 sampleJob) 0 (by simp)⟩

theorem mapGet_mapSet_self (m : List (String × ℤ)) (k : String) (v : ℤ) :
    mapGet (mapSet m k v) k = v := by
  induction m with
  | nil => simp [mapSet, mapGet]
  | cons p rest ih =>
    show mapGet (if p.1 = k then (k, v) :: rest else p :: mapSet rest k v) k = v
    by_cases hp : p.1 = k
    · rw [if_pos hp]
      simp [mapGet]
    · rw [if_neg hp]
      show (if p.1 = k then p.2 else mapGet (mapSet rest k v) k) = v
      rw [if_neg hp, ih]

theorem mapGet_mapSet_ne (m : List (String × ℤ)) (k k' : String) (v : ℤ) (h : k' ≠ k) :
    mapGet (mapSet m k v) k' = mapGet m k' := by
  induction m with
  | nil =>
    show (if k = k' then v else mapGet [] k') = mapGet [] k'
    rw [if_neg (fun hh => h hh.symm)]
  | cons p rest ih =>
    show mapGet (if p.1 = k then (k, v) :: rest else p :: mapSet rest k v) k' = _
    by_cases hp : p.1 = k
    · rw [if_pos hp]
      show (if k = k' then v else mapGet rest k') = (if p.1 = k' then p.2 else mapGet rest k')
      rw [if_neg (fun hh => h hh.symm), if_neg (by rw [hp]; exact fun hh => h hh.symm)]
    · rw [if_neg hp]
      show (if p.1 = k' then p.2 else mapGet (mapSet rest k v) k') = _
      rw [mapGet]
      by_cases hp2 : p.1 = k'
      · rw [if_pos hp2, if_pos hp2]
      · rw [if_neg hp2, if_neg hp2, ih]

theorem findBestAux_sound (now : ℚ) (cap : ℕ) (act : String → ℤ) :
    ∀ (l : List (ℕ × ApiKeyStatus)) (acc : Option (ℕ × ℚ)) (res : ℕ × ℚ),
      findBestAux now cap act l acc = some res →
      acc = some res ∨ ∃ p ∈ l, p.1 = res.1 ∧ act p.2.key < (cap : ℤ) := by
  intro l
  induction l with
  | nil => intro acc res h; exact Or.inl h
  | cons q rest ih =>
    obtain ⟨i, k⟩ := q
    intro acc res h
    rcases acc with _ | ⟨j, lo⟩ <;> simp only [findBestAux] at h
    · by_cases h1 : k.rateLimitedUntil > now
      · rw [if_pos h1] at h
        rcases ih none res h with ha | ⟨p, hp, hp1, hp2⟩
        · exact Or.inl ha
        · exact Or.inr ⟨p, List.mem_cons_of_mem _ hp, hp1, hp2⟩
      · rw [if_neg h1] at h
        by_cases h2 : act k.key ≥ (cap : ℤ)
        · rw [if_pos h2] at h
          rcases ih none res h with ha | ⟨p, hp, hp1, hp2⟩
          · exact Or.inl ha
          · exact Or.inr ⟨p, List.mem_cons_of_mem _ hp, hp1, hp2⟩
        · rw [if_neg h2] at h
          have hklt : act k.key < (cap : ℤ) := by omega
          rcases ih _ res h with ha | ⟨p, hp, hp1, hp2⟩
          · have hres : res = (i, keyLoad (act k.key) k.lastUsed) := (Option.some.inj ha).symm
            exact Or.inr ⟨(i, k), by simp, by rw [hres], hklt⟩
          · exact Or.inr ⟨p, List.mem_cons_of_mem _ hp, hp1, hp2⟩
    · by_cases h1 : k.rateLimitedUntil > now
      · rw [if_pos h1] at h
        rcases ih _ res h with ha | ⟨p, hp, hp1, hp2⟩
        · exact Or.inl ha
        · exact Or.inr ⟨p, List.mem_cons_of_mem _ hp, hp1, hp2⟩
      · rw [if_neg h1] at h
        by_cases h2 : act k.key ≥ (cap : ℤ)
        · rw [if_pos h2] at h
          rcases ih _ res h with ha | ⟨p, hp, hp1, hp2⟩
          · exact Or.inl ha
          · exact Or.inr ⟨p, List.mem_cons_of_mem _ hp, hp1, hp2⟩
        · rw [if_neg h2] at h
          have hklt : act k.key < (cap : ℤ) := by omega
          by_cases h3 : keyLoad (act k.key) k.lastUsed < lo
          · rw [if_pos h3] at h
            rcases ih _ res h with ha | ⟨p, hp, hp1, hp2⟩
            · have hres : res = (i, keyLoad (act k.key) k.lastUsed) := (Option.some.inj ha).symm
              exact Or.inr ⟨(i, k), by simp, by rw [hres], hklt⟩
            · exact Or.inr ⟨p, List.mem_cons_of_mem _ hp, hp1, hp2⟩
          · rw [if_neg h3] at h
            rcases ih _ res h with ha | ⟨p, hp, hp1, hp2⟩
            · exact Or.inl ha
            · exact Or.inr ⟨p, List.mem_cons_of_mem _ hp, hp1, hp2⟩

theorem tryAcquireKey_facts (now : ℚ) (s : PoolState) (k : String) (s₁ : PoolState)
    (h : tryAcquireKey now s = some (k, s₁)) :
    (∃ k0 ∈ s.keys, k0.key = k) ∧
    mapGet s.activeRequests k < (s.maxConcurrentPerKey : ℤ) ∧
    s₁.activeRequests = mapSet s.activeRequests k (mapGet s.activeRequests k + 1) ∧
    (∀ k1 ∈ s₁.keys, ∃ k0 ∈ s.keys, k1.key = k0.key) ∧
    s₁.maxConcurrentPerKey = s.maxConcurrentPerKey ∧ s₁.lockQueue = s.lockQueue := by
  unfold tryAcquireKey at h
  split at h
  next => simp at h
  next i load hb =>
    split at h
    next => simp at h
    next k0 hg =>
      have hmem0 : k0 ∈ s.keys := List.get?_mem hg
      obtain ⟨hk, hs⟩ : k0.key = k ∧ ({ s with
          keys := s.keys.set i { k0 with lastUsed := now, requestCount := k0.requestCount + 1 }
          activeRequests := mapSet s.activeRequests k0.key
            (mapGet s.activeRequests k0.key + 1) } : PoolState) = s₁ := by
        have := Option.some.inj h
        exact ⟨congrArg Prod.fst this, congrArg Prod.snd this⟩
      rcases findBestAux_sound now s.maxConcurrentPerKey (mapGet s.activeRequests)
          s.keys.enum none (i, load) hb with habs | ⟨p, hp, hp1, hp2⟩
      · simp at habs
      · have hpe : s.keys.get? p.1 = some p.2 := by
          rw [List.get?_eq_getElem?]
          exact List.mem_enum_iff_getElem?.1 hp
        have hpk : p.2 = k0 := by
          rw [hp1] at hpe
          exact Option.some.inj (hpe.symm.trans hg)
        subst hs
        refine ⟨⟨k0, hmem0, hk⟩, ?_, ?_, ?_, rfl, rfl⟩
        · rw [← hk, ← hpk]
          exact hp2
        · rw [hk]
        · intro k1 hk1
          rcases List.mem_or_eq_of_mem_set hk1 with hmem | heq
          · exact ⟨k1, hmem, rfl⟩
          · exact ⟨k0, hmem0, by rw [heq]⟩

theorem tryAcquireKey_inv (now : ℚ) (s : PoolState) (hinv : PoolInv s) (r : String × PoolState)
    (h : tryAcquireKey now s = some r) : PoolInv r.2 := by
  obtain ⟨⟨k0, hk0, hk0k⟩, hlt, hact, hkeys, hcap, _⟩ := tryAcquireKey_facts now s r.1 r.2 h
  intro k1 hk1
  obtain ⟨k2, hk2, hk12⟩ := hkeys k1 hk1
  rw [hact, hcap, hk12]
  by_cases he : k2.key = r.1
  · rw [he, mapGet_mapSet_self]
    have h0 : 0 ≤ mapGet s.activeRequests r.1 := by
      have := hinv k0 hk0
      rw [hk0k] at this
      exact this.1
    omega
  · rw [mapGet_mapSet_ne _ _ _ _ he]
    exact hinv k2 hk2

theorem tryAcquireKey_monotone (now : ℚ) (s : PoolState) (r : String × PoolState)
    (h : tryAcquireKey now s = some r) (key : String) :
    mapGet s.activeRequests key ≤ mapGet r.2.activeRequests key := by
  obtain ⟨_, _, hact, _, _, _⟩ := tryAcquireKey_facts now s r.1 r.2 h
  rw [hact]
  by_cases he : key = r.1
  · rw [he, mapGet_mapSet_self]
    omega
  · rw [mapGet_mapSet_ne _ _ _ _ he]

theorem bumpErrorCount_mem (l : List ApiKeyStatus) (key : String) :
    ∀ k1 ∈ bumpErrorCount l key, ∃ k0 ∈ l, k1.key = k0.key := by
  induction l with
  | nil => intro k1 h; simp [bumpErrorCount] at h
  | cons q rest ih =>
    intro k1 h
    simp only [bumpErrorCount] at h
    by_cases hq : q.key = key
    · rw [if_pos hq] at h
      rcases List.mem_cons.1 h with heq | hmem
      · exact ⟨q, by simp, by rw [heq]⟩
      · exact ⟨k1, by simp [hmem], rfl⟩
    · rw [if_neg hq] at h
      rcases List.mem_cons.1 h with heq | hmem
      · exact ⟨q, by simp, by rw [heq]⟩
      · obtain ⟨k0, hk0, hkk⟩ := ih k1 hmem
        exact ⟨k0, by simp [hk0], hkk⟩

theorem lockQueue_branch_inv (now : ℚ) (s₁ : PoolState) (hinv₁ : PoolInv s₁) :
    PoolInv (if s₁.lockQueue ≠ 0 then
      match tryAcquireKey now s₁ with
      | some (_, s₂) => { s₂ with lockQueue := s₂.lockQueue - 1 }
      | none => s₁
    else s₁) := by
  split
  · split
    next k2 s₂ hacq => exact fun k1 hk1 => tryAcquireKey_inv now s₁ hinv₁ (k2, s₂) hacq k1 hk1
    next => exact hinv₁
  · exact hinv₁

theorem releaseKey_inv (now : ℚ) (key : String) (hadError : Bool) (s : PoolState)
    (hinv : PoolInv s) : PoolInv (releaseKey now key hadError s) := by
  unfold releaseKey
  split
  · exact hinv
  next k0 hf =>
    have hmem : k0 ∈ s.keys := List.mem_of_find?_eq_some hf
    have hkey : k0.key = key := by simpa using List.find?_some hf
    have hinv₁ : PoolInv ({ s with
        activeRequests := mapSet s.activeRequests key (max 0 (mapGet s.activeRequests key - 1))
        keys := if hadError then bumpErrorCount s.keys key else s.keys } : PoolState) := by
      intro k1 hk1
      have hk1' : ∃ k2 ∈ s.keys, k1.key = k2.key := by
        by_cases he : hadError
        · simp only [he, if_true] at hk1
          exact bumpErrorCount_mem s.keys key k1 hk1
        · simp only [he, if_false] at hk1
          exact ⟨k1, hk1, rfl⟩
      obtain ⟨k2, hk2, hkk⟩ := hk1'
      show 0 ≤ mapGet (mapSet s.activeRequests key (max 0 (mapGet s.activeRequests key - 1)))
          k1.key ∧
        mapGet (mapSet s.activeRequests key (max 0 (mapGet s.activeRequests key - 1)))
          k1.key ≤ (s.maxConcurrentPerKey : ℤ)
      by_cases he : k1.key = key
      · rw [he, mapGet_mapSet_self]
        have hb := hinv k0 hmem
        rw [hkey] at hb
        have hc : (0 : ℤ) ≤ (s.maxConcurrentPerKey : ℤ) := by positivity
        exact ⟨by omega, by omega⟩
      · rw [mapGet_mapSet_ne _ _ _ _ he, hkk]
        exact hinv k2 hk2
    exact lockQueue_branch_inv now _ hinv₁

theorem poolStep_inv (s : PoolState) (op : PoolOp) (hinv : PoolInv s) :
    PoolInv (poolStep s op) := by
  cases op with
  | acquire now =>
    show PoolInv (match tryAcquireKey now s with
      | some (_, s₁) => s₁
      | none => s)
    split
    next k s₁ hacq => exact tryAcquireKey_inv now s hinv (k, s₁) hacq
    next => exact hinv
  | release now key hadError => exact releaseKey_inv now key hadError s hinv

theorem poolRun_inv (ops : List PoolOp) (s : PoolState) (hinv : PoolInv s) :
    PoolInv (poolRun ops s) := by
  induction ops generalizing s with
  | nil => exact hinv
  | cons op rest ih => exact ih (poolStep s op) (poolStep_inv s op hinv)

theorem acquire_release_id (now now₂ : ℚ) (s : PoolState) (k : String) (s₁ : PoolState)
    (hinv : PoolInv s) (hlq : s.lockQueue = 0) (hacq : tryAcquireKey now s = some (k, s₁)) :
    ∀ key, mapGet ((releaseKey now₂ k false s₁).activeRequests) key =
      mapGet s.activeRequests key := by
  obtain ⟨⟨k0, hk0, hk0k⟩, hlt, hact, hkeys, hcap, hlq1⟩ := tryAcquireKey_facts now s k s₁ hacq
  have hsel : ∃ k1 ∈ s₁.keys, k1.key = k := by
    unfold tryAcquireKey at hacq
    split at hacq
    next => simp at hacq
    next i load hb =>
      split at hacq
      next => simp at hacq
      next k2 hg =>
        have hi : i < s.keys.length := by
          rcases List.get?_eq_some.1 hg with ⟨hh, _⟩
          exact hh
        obtain ⟨hk2k, hs⟩ : k2.key = k ∧ _ = s₁ := by
          have := Option.some.inj hacq
          exact ⟨congrArg Prod.fst this, congrArg Prod.snd this⟩
        refine ⟨{ k2 with lastUsed := now, requestCount := k2.requestCount + 1 }, ?_, hk2k⟩
        rw [← hs]
        have : (s.keys.set i { k2 with lastUsed := now, requestCount := k2.requestCount + 1 }).get? i =
            some { k2 with lastUsed := now, requestCount := k2.requestCount + 1 } :=
          List.get?_set_eq_of_lt _ hi
        exact List.get?_mem this
  intro key
  have hold : 0 ≤ mapGet s.activeRequests k := by
    have := hinv k0 hk0
    rw [hk0k] at this
    exact this.1
  unfold releaseKey
  split
  next hf =>
    obtain ⟨k1, hk1, hk1k⟩ := hsel
    rw [List.find?_eq_none] at hf
    have := hf k1 hk1
    simp [hk1k] at this
  next k2 hf =>
    have hcur : mapGet s₁.activeRequests k = mapGet s.activeRequests k + 1 := by
      rw [hact, mapGet_mapSet_self]
    rw [if_neg (by simp [hlq1, hlq])]
    by_cases he : key = k
    · rw [he]
      show mapGet (mapSet s₁.activeRequests k (max 0 (mapGet s₁.activeRequests k - 1))) k = _
      rw [mapGet_mapSet_self, hcur]
      omega
    · show mapGet (mapSet s₁.activeRequests k (max 0 (mapGet s₁.activeRequests k - 1))) key = _
      rw [mapGet_mapSet_ne _ _ _ _ he, hact, mapGet_mapSet_ne _ _ _ _ he]

/-- C9: every acquire/release history preserves `0 ≤ in_flight ≤
per_cred_cap` for every credential; a successful acquire selects a credential
strictly below the cap and increments exactly its counter; release never
drives a pool credential's counter below zero; and an acquire immediately
followed by releasing the returned key restores every in-flight counter. -/
theorem poolInvariant_spec :
    (∀ (ops : List PoolOp) (s : PoolState), PoolInv s → PoolInv (poolRun ops s)) ∧
    (∀ (now : ℚ) (s : PoolState) (k : String) (s₁ : PoolState), PoolInv s →
      tryAcquireKey now s = some (k, s₁) →
      mapGet s.activeRequests k < (s.maxConcurrentPerKey : ℤ) ∧
      mapGet s₁.activeRequests k = mapGet s.activeRequests k + 1) ∧
    (∀ (now : ℚ) (key : String) (hadError : Bool) (s : PoolState), PoolInv s →
      ∀ k1 ∈ (releaseKey now key hadError s).keys,
        0 ≤ mapGet (releaseKey now key hadError s).activeRequests k1.key) ∧
    (∀ (now now₂ : ℚ) (s : PoolState) (k : String) (s₁ : PoolState),
      PoolInv s → s.lockQueue = 0 → tryAcquireKey now s = some (k, s₁) →
      ∀ key, mapGet ((releaseKey now₂ k false s₁).activeRequests) key =
        mapGet s.activeRequests key) := by
  refine ⟨fun ops s hinv => poolRun_inv ops s hinv, ?_, ?_, ?_⟩
  · intro now s k s₁ hinv hacq
    obtain ⟨_, hlt, hact, _, _, _⟩ := tryAcquireKey_facts now s k s₁ hacq
    exact ⟨hlt, by rw [hact, mapGet_mapSet_self]⟩
  · intro now key hadError s hinv k1 hk1
    exact (releaseKey_inv now key hadError s hinv k1 hk1).1
  · intro now now₂ s k s₁ hinv hlq hacq
    exact acquire_release_id now now₂ s k s₁ hinv hlq hacq

/-- C9 witness: the invariant, the acquire bounds and the acquire/release
round trip on the concrete single-key pool. -/
theorem poolInvariant_spec_witness :
    PoolInv (poolRun [PoolOp.acquire 5, PoolOp.release 6 "K" false] poolW) ∧
    (mapGet poolW.activeRequests "K" < (poolW.maxConcurrentPerKey : ℤ) ∧
      mapGet poolWAfter.activeRequests "K" = mapGet poolW.activeRequests "K" + 1) ∧
    (∀ k1 ∈ (releaseKey 6 "K" false poolW).keys,
      0 ≤ mapGet (releaseKey 6 "K" false poolW).activeRequests k1.key) ∧
    (∀ key, mapGet ((releaseKey 6 "K" false poolWAfter).activeRequests) key =
      mapGet poolW.activeRequests key) :=
  ⟨poolInvariant_spec.1 [PoolOp.acquire 5, PoolOp.release 6 "K" false] poolW (by decide),
   poolInvariant_spec.2.1 5 poolW "K" poolWAfter (by decide) (by decide),
   poolInvariant_spec.2.2.1 6 "K" false poolW (by decide),
   poolInvariant_spec.2.2.2 5 6 poolW "K" poolWAfter (by decide) (by decide) (by decide)⟩

/-- C1 (code bug): at a realistic epoch-millisecond clock the load score
`activeCount * 1000 + lastUsed / 1000000` is dominated by the `lastUsed`
term, so `tryAcquireKey` picks key `B` (one request in flight, never used)
over key `A` (idle but recently used) although `A` is eligible and has
strictly fewer requests in flight — contradicting the least-loaded selection
that the surrounding code comments describe. -/
theorem tryAcquireKey_picks_loaded_key :
    (tryAcquireKey nowC1 poolC1).map (fun r => r.1) = some "B" ∧
    mapGet poolC1.activeRequests "A" < mapGet poolC1.activeRequests "B" ∧
    keyA ∈ poolC1.keys ∧ keyA.key = "A" ∧ ¬(keyA.rateLimitedUntil > nowC1) ∧
    mapGet poolC1.activeRequests "A" < (poolC1.maxConcurrentPerKey : ℤ) := by
  refine ⟨?_, by decide, by decide, by decide, by decide, by decide⟩
  norm_num [tryAcquireKey, findBestAux, keyLoad, mapGet, mapSet, poolC1, keyA, keyB, nowC1,
    List.enum]
  simp
  rw [if_pos (show ((1000 : ℚ)) < 1700000 by norm_num)]
  simp

/-- C2 (amended): for every estimated duration `D > 0`, chunk length
`m > 0` minutes (`T = 60 m` seconds) and overlap `O > 0`, the planner
returns exactly `ceil(D / T)` chunks with dense zero-based indexes, chunk `i`
starting at `i * T` and ending at `min((i + 1) * T + O, D)` — extended by the
overlap only up to truncation at the estimated end; the last chunk ends
exactly at `D`; and `D ≤ T` yields exactly one chunk spanning `[0, D]`. -/
theorem calculateChunkStrategy_spec (D m O : ℚ) (hD : 0 < D) (hm : 0 < m) (hO : 0 < O) :
    (calculateChunkStrategy D { chunkDurationMinutes := some m, overlapSeconds := some O }).length = (⌈D / (m * 60)⌉).toNat ∧
    (∀ i (hi : i < (calculateChunkStrategy D { chunkDurationMinutes := some m, overlapSeconds := some O }).length),
      ((calculateChunkStrategy D { chunkDurationMinutes := some m, overlapSeconds := some O }).get ⟨i, hi⟩).index = i ∧
      ((calculateChunkStrategy D { chunkDurationMinutes := some m, overlapSeconds := some O }).get ⟨i, hi⟩).startTime = (i : ℚ) * (m * 60) ∧
      ((calculateChunkStrategy D { chunkDurationMinutes := some m, overlapSeconds := some O }).get ⟨i, hi⟩).endTime =
        min (((i : ℚ) + 1) * (m * 60) + O) D) ∧
    (∀ hne : calculateChunkStrategy D { chunkDurationMinutes := some m, overlapSeconds := some O } ≠ [],
      ((calculateChunkStrategy D { chunkDurationMinutes := some m, overlapSeconds := some O }).getLast hne).endTime = D) ∧
    (D ≤ m * 60 → (calculateChunkStrategy D { chunkDurationMinutes := some m, overlapSeconds := some O }).length = 1) := by
  have hT : (0 : ℚ) < m * 60 := by positivity
  have hmne : jsOrDefault (some m) 20 = m := by
    show (if m = 0 then (20 : ℚ) else m) = m
    rw [if_neg (ne_of_gt hm)]
  have hOne : jsOrDefault (some O) 5 = O := by
    show (if O = 0 then (5 : ℚ) else O) = O
    rw [if_neg (ne_of_gt hO)]
  have hceil_pos : 0 < ⌈D / (m * 60)⌉ := Int.ceil_pos.2 (div_pos hD hT)
  have hcs : calculateChunkStrategy D { chunkDurationMinutes := some m, overlapSeconds := some O } =
      (List.range (⌈D / (m * 60)⌉).toNat).map (fun (i : ℕ) =>
        { index := i
          startTime := (i : ℚ) * (m * 60)
          endTime := min (((i : ℚ) + 1) * (m * 60) + O) D
          duration := min (((i : ℚ) + 1) * (m * 60) + O) D - (i : ℚ) * (m * 60)
          fileName := "chunk_" ++ String.mk (natRepr i) ++ ".mp4" : ChunkMetadata }) := by
    unfold calculateChunkStrategy
    rw [hmne, hOne]
  have hlen : (calculateChunkStrategy D { chunkDurationMinutes := some m, overlapSeconds := some O }).length = (⌈D / (m * 60)⌉).toNat := by
    rw [hcs, List.length_map, List.length_range]
  have hget : ∀ i (hi : i < (calculateChunkStrategy D { chunkDurationMinutes := some m, overlapSeconds := some O }).length),
      (calculateChunkStrategy D { chunkDurationMinutes := some m, overlapSeconds := some O }).get ⟨i, hi⟩ =
        { index := i
          startTime := (i : ℚ) * (m * 60)
          endTime := min (((i : ℚ) + 1) * (m * 60) + O) D
          duration := min (((i : ℚ) + 1) * (m * 60) + O) D - (i : ℚ) * (m * 60)
          fileName := "chunk_" ++ String.mk (natRepr i) ++ ".mp4" : ChunkMetadata } := by
    intro i hi
    have hi2 : i < (⌈D / (m * 60)⌉).toNat := by rw [← hlen]; exact hi
    simp only [hcs, List.get_eq_getElem, List.getElem_map, List.getElem_range]
  have hDle : D ≤ ((⌈D / (m * 60)⌉).toNat : ℚ) * (m * 60) := by
    have h1 : D / (m * 60) ≤ (⌈D / (m * 60)⌉ : ℚ) := Int.le_ceil _
    have h2 : (((⌈D / (m * 60)⌉).toNat : ℕ) : ℚ) = ((⌈D / (m * 60)⌉ : ℤ) : ℚ) := by
      norm_cast
      omega
    rw [div_le_iff₀ hT] at h1
    rw [h2]
    exact h1
  refine ⟨hlen, ?_, ?_, ?_⟩
  · intro i hi
    rw [hget i hi]
    exact ⟨rfl, rfl, rfl⟩
  · intro hne
    have hpos : 0 < (calculateChunkStrategy D { chunkDurationMinutes := some m, overlapSeconds := some O }).length := List.length_pos.2 hne
    rw [List.getLast_eq_get]
    rw [hget _ _]
    have hn : (((calculateChunkStrategy D { chunkDurationMinutes := some m, overlapSeconds := some O }).length - 1 : ℕ) : ℚ) + 1 =
        (((⌈D / (m * 60)⌉).toNat : ℕ) : ℚ) := by
      rw [hlen] at hpos ⊢
      have : ((⌈D / (m * 60)⌉).toNat - 1 : ℕ) + 1 = (⌈D / (m * 60)⌉).toNat := by omega
      rw [show ((((⌈D / (m * 60)⌉).toNat - 1 : ℕ) : ℚ)) + 1 =
        ((((⌈D / (m * 60)⌉).toNat - 1 : ℕ) + 1 : ℕ) : ℚ) by push_cast; ring, this]
    show min (((((calculateChunkStrategy D { chunkDurationMinutes := some m, overlapSeconds := some O }).length - 1 : ℕ) : ℚ) + 1) * (m * 60) + O) D = D
    rw [hn]
    have : D ≤ (((⌈D / (m * 60)⌉).toNat : ℕ) : ℚ) * (m * 60) + O := by
      have := hDle
      linarith
    exact min_eq_right this
  · intro hle
    rw [hlen]
    have h1 : ⌈D / (m * 60)⌉ ≤ 1 := by
      rw [Int.ceil_le]
      push_cast
      rw [div_le_one hT]
      exact hle
    omega

/-- C2 counterexample: with a 1203 s estimate, 20-minute chunks and 5 s
overlap the planner gives two chunks and the first (non-terminal) chunk ends
at 1203, not at the claimed `1200 + 5`; and a configured overlap of 0 is
falsy in JavaScript, so the default 5 s applies: with a 2000 s estimate the
first chunk ends at 1205, not 1200. -/
theorem calculateChunkStrategy_counterexample :
    ((calculateChunkStrategy 1203 { chunkDurationMinutes := some 20, overlapSeconds := some 5 }).map (fun c => (c.index, c.startTime, c.endTime))) =
      [(0, 0, 1203), (1, 1200, 1203)] ∧
    ((1203 : ℚ)) ≠ 1200 + 5 ∧
    ((calculateChunkStrategy 2000 { chunkDurationMinutes := some 20, overlapSeconds := some 0 }).map (fun c => (c.index, c.startTime, c.endTime))) =
      [(0, 0, 1205), (1, 1200, 2000)] ∧
    ((1205 : ℚ)) ≠ 1200 + 0 := by
  have e1 : (⌈(401 : ℚ) / 400⌉).toNat = 2 := by
    rw [show ⌈(401 : ℚ) / 400⌉ = 2 by rw [Int.ceil_eq_iff]; norm_num]
    rfl
  have e2 : (⌈(5 : ℚ) / 3⌉).toNat = 2 := by
    rw [show ⌈(5 : ℚ) / 3⌉ = 2 by rw [Int.ceil_eq_iff]; norm_num]
    rfl
  refine ⟨?_, by norm_num, ?_, by norm_num⟩
  · unfold calculateChunkStrategy jsOrDefault
    norm_num [e1]
    rw [show List.range 2 = [0, 1] from rfl]
    norm_num [min_def]
  · unfold calculateChunkStrategy jsOrDefault
    norm_num [e2]
    rw [show List.range 2 = [0, 1] from rfl]
    norm_num [min_def]

/-- C2 witness: the amended chunk-plan shape at a 1300 s estimate with
20-minute chunks and 5 s overlap. -/
theorem calculateChunkStrategy_spec_witness :
    (0 : ℚ) < 1300 ∧
    ((calculateChunkStrategy 1300 { chunkDurationMinutes := some 20, overlapSeconds := some 5 }).length = (⌈(1300 : ℚ) / (20 * 60)⌉).toNat ∧
      (∀ i (hi : i < (calculateChunkStrategy 1300 { chunkDurationMinutes := some 20, overlapSeconds := some 5 }).length),
        ((calculateChunkStrategy 1300 { chunkDurationMinutes := some 20, overlapSeconds := some 5 }).get ⟨i, hi⟩).index = i ∧
        ((calculateChunkStrategy 1300 { chunkDurationMinutes := some 20, overlapSeconds := some 5 }).get ⟨i, hi⟩).startTime = (i : ℚ) * (20 * 60) ∧
        ((calculateChunkStrategy 1300 { chunkDurationMinutes := some 20, overlapSeconds := some 5 }).get ⟨i, hi⟩).endTime =
          min (((i : ℚ) + 1) * (20 * 60) + 5) 1300) ∧
      (∀ hne : calculateChunkStrategy 1300 { chunkDurationMinutes := some 20, overlapSeconds := some 5 } ≠ [],
        ((calculateChunkStrategy 1300 { chunkDurationMinutes := some 20, overlapSeconds := some 5 }).getLast hne).endTime = 1300) ∧
      ((1300 : ℚ) ≤ 20 * 60 → (calculateChunkStrategy 1300 { chunkDurationMinutes := some 20, overlapSeconds := some 5 }).length = 1)) :=
  ⟨by decide, calculateChunkStrategy_spec 1300 20 5 (by decide) (by decide) (by decide)⟩


/-- C4: every chunk contributes exactly one result: the output of the
parallel scheduler has one entry per chunk, is sorted by chunk index, and is
a permutation of the per-chunk results. A chunk whose call fails contributes
the placeholder analysis, whose clean_script has the
`[Content from <start> to <end> - <reason>]` shape, whose single chapter
covers the chunk duration, and whose filtered categories and main-content
timestamps are empty — but whose concepts and practice aggregates are the
singleton markers, not empty lists. -/
theorem processChunksInParallel_spec (chunks : List ChunkMetadata)
    (outcome : ChunkMetadata → Except String VideoAnalysisResult) :
    (processChunksInParallel chunks outcome).length = chunks.length ∧
    List.Sorted (fun a b => a.chunkIndex ≤ b.chunkIndex) (processChunksInParallel chunks outcome) ∧
    List.Perm (processChunksInParallel chunks outcome) (chunks.map (processChunkWithKey outcome)) ∧
    ∀ chunk ∈ chunks, ∀ e, outcome chunk = .error e →
      ({ chunkIndex := chunk.index, chunkStartOffset := chunk.startTime, result := createPlaceholderResult chunk e } : ChunkResult) ∈ processChunksInParallel chunks outcome ∧
      (createPlaceholderResult chunk e).clean_script = "[Content from " ++ placeholderTimestamp chunk.startTime ++ " to " ++ placeholderTimestamp chunk.endTime ++ " - " ++ e ++ "]" ∧
      (createPlaceholderResult chunk e).chapters.length = 1 ∧
      ((createPlaceholderResult chunk e).chapters.map Chapter.end_time) = [placeholderTimestamp chunk.duration] ∧
      (createPlaceholderResult chunk e).content_metadata.filtered_categories = [] ∧
      (createPlaceholderResult chunk e).content_metadata.main_content_timestamps = [] ∧
      (createPlaceholderResult chunk e).important_concepts = ["Analysis incomplete"] ∧
      (createPlaceholderResult chunk e).recommended_practice = ["Review this segment manually"] := by
  haveI : IsTotal ChunkResult (fun a b => a.chunkIndex ≤ b.chunkIndex) :=
    ⟨fun a b => Nat.le_total a.chunkIndex b.chunkIndex⟩
  haveI : IsTrans ChunkResult (fun a b => a.chunkIndex ≤ b.chunkIndex) :=
    ⟨fun _ _ _ hab hbc => le_trans hab hbc⟩
  refine ⟨?_, ?_, ?_, ?_⟩
  · unfold processChunksInParallel
    rw [List.length_insertionSort, List.length_map]
  · exact List.sorted_insertionSort _ _
  · exact List.perm_insertionSort _ _
  · intro chunk hc e he
    refine ⟨?_, rfl, rfl, rfl, rfl, rfl, rfl, rfl⟩
    unfold processChunksInParallel
    rw [List.Perm.mem_iff (List.perm_insertionSort _ _)]
    have hpk : processChunkWithKey outcome chunk =
        { chunkIndex := chunk.index, chunkStartOffset := chunk.startTime, result := createPlaceholderResult chunk e } := by
      unfold processChunkWithKey
      rw [he]
    exact hpk ▸ List.mem_map_of_mem _ hc

/-- C4 counterexample: the placeholder substituted for a failed chunk does
not have empty aggregates — its concepts and practice lists are the
singleton markers `Analysis incomplete` and `Review this segment manually`. -/
theorem createPlaceholderResult_counterexample :
    (createPlaceholderResult sampleChunk "boom").important_concepts = ["Analysis incomplete"] ∧
    (createPlaceholderResult sampleChunk "boom").recommended_practice = ["Review this segment manually"] ∧
    (["Analysis incomplete"] : List String) ≠ [] ∧
    (["Review this segment manually"] : List String) ≠ [] :=
  ⟨rfl, rfl, by decide, by decide⟩

/-- C4 witness: on a concrete two-chunk plan whose second chunk fails, the
failed chunk contributes exactly its placeholder result. -/
theorem processChunksInParallel_spec_witness :
    sampleChunk ∈ [chunkZero, sampleChunk] ∧ oracleC4 sampleChunk = Except.error "boom" ∧
    ({ chunkIndex := sampleChunk.index, chunkStartOffset := sampleChunk.startTime, result := createPlaceholderResult sampleChunk "boom" } : ChunkResult) ∈ processChunksInParallel [chunkZero, sampleChunk] oracleC4 :=
  ⟨by simp, rfl,
    ((processChunksInParallel_spec [chunkZero, sampleChunk] oracleC4).2.2.2 sampleChunk
      (by simp) "boom" rfl).1⟩

theorem waitLoop_timedOut (poll : ℕ → PollResult) :
    ∀ r i n, waitLoop poll i r = .timedOut n → n = i + r := by
  intro r
  induction r with
  | zero =>
    intro i n h
    simp only [waitLoop, WaitOutcome.timedOut.injEq] at h
    omega
  | succ r ih =>
    intro i n h
    cases hp : poll i with
    | ok st em =>
      simp only [waitLoop, hp] at h
      by_cases h1 : st = "ACTIVE"
      · rw [if_pos h1] at h
        cases h
      · rw [if_neg h1] at h
        by_cases h2 : st = "FAILED"
        · rw [if_pos h2] at h
          cases h
        · rw [if_neg h2] at h
          have := ih (i + 1) n h
          omega
    | failedCheck =>
      simp only [waitLoop, hp] at h
      have := ih (i + 1) n h
      omega

theorem waitLoop_success (poll : ℕ → PollResult) :
    ∀ r i j, waitLoop poll i r = .success j → ∃ em, poll j = .ok "ACTIVE" em := by
  intro r
  induction r with
  | zero =>
    intro i j h
    simp only [waitLoop] at h
    cases h
  | succ r ih =>
    intro i j h
    cases hp : poll i with
    | ok st em =>
      simp only [waitLoop, hp] at h
      by_cases h1 : st = "ACTIVE"
      · rw [if_pos h1] at h
        cases h
        exact ⟨em, by rw [hp, h1]⟩
      · rw [if_neg h1] at h
        by_cases h2 : st = "FAILED"
        · rw [if_pos h2] at h
          cases h
        · rw [if_neg h2] at h
          exact ih (i + 1) j h
    | failedCheck =>
      simp only [waitLoop, hp] at h
      exact ih (i + 1) j h

theorem waitLoop_failed (poll : ℕ → PollResult) :
    ∀ r i msg j, waitLoop poll i r = .failed msg j →
      ∃ em, poll j = .ok "FAILED" em ∧
        msg = "File processing failed on Gemini: " ++ em.getD "Unknown error" := by
  intro r
  induction r with
  | zero =>
    intro i msg j h
    simp only [waitLoop] at h
    cases h
  | succ r ih =>
    intro i msg j h
    cases hp : poll i with
    | ok st em =>
      simp only [waitLoop, hp] at h
      by_cases h1 : st = "ACTIVE"
      · rw [if_pos h1] at h
        cases h
      · rw [if_neg h1] at h
        by_cases h2 : st = "FAILED"
        · rw [if_pos h2] at h
          cases h
          exact ⟨em, by rw [hp, h2], rfl⟩
        · rw [if_neg h2] at h
          exact ih (i + 1) msg j h
    | failedCheck =>
      simp only [waitLoop, hp] at h
      exact ih (i + 1) msg j h

theorem waitLoop_allProcessing :
    ∀ r i, waitLoop (fun _ => PollResult.ok "PROCESSING" none) i r = .timedOut (i + r) := by
  intro r
  induction r with
  | zero => intro i; rfl
  | succ r ih =>
    intro i
    simp only [waitLoop]
    rw [if_neg (by decide), if_neg (by decide), ih (i + 1)]
    rw [show i + 1 + r = i + (r + 1) from by omega]

theorem maxAttemptsFor_pos (b : ℚ) (hb : 0 < b) :
    (maxAttemptsFor (some b) : ℤ) = min 450 (45 + 9 * ⌈b / (1024 * 1024) / 10⌉) := by
  simp only [maxAttemptsFor]
  rw [if_neg (ne_of_gt hb)]
  have hc : 1 ≤ ⌈b / (1024 * 1024) / 10⌉ := Int.ceil_pos.mpr (by positivity)
  have h0 : (0 : ℤ) ≤ min 450 (45 + ⌈b / (1024 * 1024) / 10⌉ * 9) :=
    le_min (by norm_num) (by linarith)
  rw [Int.toNat_of_nonneg h0, mul_comm]

theorem maxAttemptsFor_ten : maxAttemptsFor (some 10485760) = 54 := by
  simp only [maxAttemptsFor]
  rw [if_neg (by norm_num), show ((10485760 : ℚ) / (1024 * 1024) / 10) = 1 by norm_num,
    Int.ceil_one]
  rfl

/-- C5: outcome characterization of the wait-for-ready loop. The loop sleeps
2 seconds per attempt and times out after exactly
`min(450, 45 + 9 * ceil(sizeMB/10))` sleeps, i.e. a maximum total wait of
`min(900 s, 90 s + ceil(sizeMB/10) * 18 s)` — twice the 45-second base the
specification states. A success return happens only at a poll answering
state `ACTIVE`, and a failure return happens only at a poll answering state
`FAILED`, with the message `File processing failed on Gemini: ` followed by
the reported error message (default `Unknown error`). -/
theorem waitForFileReady_spec (poll : ℕ → PollResult) (b : ℚ) (hb : 0 < b) :
    (∀ n, waitForFileReady poll (some b) = WaitOutcome.timedOut n →
      (n : ℤ) = min 450 (45 + 9 * ⌈b / (1024 * 1024) / 10⌉) ∧
      ((2 * n : ℕ) : ℤ) = min 900 (90 + 18 * ⌈b / (1024 * 1024) / 10⌉)) ∧
    (∀ i, waitForFileReady poll (some b) = WaitOutcome.success i →
      ∃ em, poll i = PollResult.ok "ACTIVE" em) ∧
    (∀ msg i, waitForFileReady poll (some b) = WaitOutcome.failed msg i →
      ∃ em, poll i = PollResult.ok "FAILED" em ∧
        msg = "File processing failed on Gemini: " ++ em.getD "Unknown error") := by
  refine ⟨?_, ?_, ?_⟩
  · intro n h
    unfold waitForFileReady at h
    have hn := waitLoop_timedOut poll _ 0 n h
    have hm := maxAttemptsFor_pos b hb
    constructor
    · omega
    · push_cast
      omega
  · intro i h
    unfold waitForFileReady at h
    exact waitLoop_success poll _ 0 i h
  · intro msg i h
    unfold waitForFileReady at h
    exact waitLoop_failed poll _ 0 msg i h

/-- C5 counterexample: for a 10 MiB file the loop times out after 54
two-second sleeps, a 108-second maximum wait, while the formula stated in
the specification gives `min(900, 45 + 18 * ceil(10/10)) = 63` seconds. -/
theorem waitForFileReady_counterexample :
    waitForFileReady (fun _ => PollResult.ok "PROCESSING" none) (some 10485760) =
      WaitOutcome.timedOut 54 ∧
    (2 * 54 : ℤ) = 108 ∧
    min (900 : ℤ) (45 + 18 * ⌈(10485760 : ℚ) / (1024 * 1024) / 10⌉) = 63 ∧
    (108 : ℤ) ≠ 63 := by
  refine ⟨?_, by norm_num, ?_, by norm_num⟩
  · unfold waitForFileReady
    rw [maxAttemptsFor_ten]
    simpa using waitLoop_allProcessing 54 0
  · rw [show ((10485760 : ℚ) / (1024 * 1024) / 10) = 1 by norm_num, Int.ceil_one]
    norm_num

/-- C5 witness: the timeout characterization instantiated at a 10 MiB file
polled with a constantly `PROCESSING` status. -/
theorem waitForFileReady_spec_witness :
    (0 : ℚ) < 10485760 ∧
    ((54 : ℤ) = min 450 (45 + 9 * ⌈(10485760 : ℚ) / (1024 * 1024) / 10⌉) ∧
      ((2 * 54 : ℕ) : ℤ) = min 900 (90 + 18 * ⌈(10485760 : ℚ) / (1024 * 1024) / 10⌉)) :=
  ⟨by norm_num,
    (waitForFileReady_spec (fun _ => PollResult.ok "PROCESSING" none) 10485760 (by norm_num)).1 54
      (by unfold waitForFileReady
          rw [maxAttemptsFor_ten]
          simpa using waitLoop_allProcessing 54 0)⟩

/-- C7: the only size gate on the intake-to-worker path is the 2 GB
Telegram limit in `handleVideoMessage` — a video message is answered with
the too-large reply exactly when its size exceeds `MAX_FILE_SIZE`
(2000 * 1024 * 1024 bytes). The worker applies no size check when it leases
a job: `processVideoWithGemini` merely branches at 10 MB between the inline
and File-API paths and processes the file either way. -/
theorem oversizeGate_spec (v : TgVideo) (now : ℕ) (b : ℚ)
    (inl fapi : Except String VideoAnalysisResult) :
    (handleVideoMessage (TgMessage.video v) now = HandleOutcome.replyTooLarge ↔
      v.file_size.getD 0 > MAX_FILE_SIZE) ∧
    (10 * (1024 * 1024) < b → processVideoWithGemini b inl fapi = fapi) ∧
    (b ≤ 10 * (1024 * 1024) → processVideoWithGemini b inl fapi = inl) := by
  refine ⟨?_, ?_, ?_⟩
  · unfold handleVideoMessage
    by_cases hs : v.file_size.getD 0 > MAX_FILE_SIZE
    · simp [hs]
    · simp [hs]
  · intro hgt
    unfold processVideoWithGemini
    rw [if_pos]
    exact (lt_div_iff₀ (by norm_num)).mpr (by linarith)
  · intro hle
    unfold processVideoWithGemini
    rw [if_neg]
    rw [gt_iff_lt, not_lt]
    exact (div_le_iff₀ (by norm_num)).mpr (by linarith)

/-- C7 counterexample: a 1.5 GiB video (1610612736 bytes, above the claimed
1 GB bound of 1073741824 bytes) passes the intake gate and is enqueued, and
the worker processes it through the File-API branch rather than rejecting
it. -/
theorem oversizeGate_counterexample :
    (1073741824 : ℚ) < 1610612736 ∧
    handleVideoMessage (TgMessage.video { file_id := "f", file_name := some "v.mp4", file_size := some 1610612736, mime_type := some "video/mp4" }) 0 = HandleOutcome.enqueue "f" "v.mp4" 1610612736 "video/mp4" ∧
    processVideoWithGemini 1610612736 (Except.error "inline path") (Except.ok sampleAnalysis) =
      Except.ok sampleAnalysis := by
  refine ⟨by norm_num, ?_, ?_⟩
  · show (if (1610612736 : ℚ) > MAX_FILE_SIZE then HandleOutcome.replyTooLarge
      else HandleOutcome.enqueue "f" "v.mp4" 1610612736 "video/mp4") = _
    rw [if_neg (by norm_num [MAX_FILE_SIZE])]
  · unfold processVideoWithGemini
    rw [if_pos (by norm_num)]

/-- C7 witness: the worker-side branch instantiated at the 1.5 GiB size. -/
theorem oversizeGate_spec_witness :
    (10 * (1024 * 1024) : ℚ) < 1610612736 ∧
    processVideoWithGemini 1610612736 (Except.error "inline branch") (Except.ok sampleAnalysis) =
      Except.ok sampleAnalysis :=
  ⟨by norm_num,
    (oversizeGate_spec { file_id := "f", file_name := none, file_size := none, mime_type := none }
      0 1610612736 (Except.error "inline branch") (Except.ok sampleAnalysis)).2.1 (by norm_num)⟩

theorem foldl_add_map {α M : Type _} [AddCommMonoid M] (f : α → M) :
    ∀ (l : List α) (a : M), l.foldl (fun acc c => acc + f c) a = a + (l.map f).sum := by
  intro l
  induction l with
  | nil => intro a; simp
  | cons x xs ih => intro a; simp [ih, add_assoc]

/-- C8: the merged metadata aggregates as the specification describes, up to
the output format: the merged original-duration estimate is the sum of the
per-chunk parsed estimates rendered through the source function `formatDuration`
(which yields `Unknown` for 0 and an `MM:SS` rendering below one hour, not
an unconditional `HH:MM:SS`), and the merged removed percentage is the
`Math.round` of the mean of the per-chunk percentages. -/
theorem mergeContentMetadata_spec (cs : List ChunkResult) (h : cs ≠ []) :
    (mergeContentMetadata cs).original_duration_estimate =
      formatDuration ((cs.map (fun c => parseDuration c.result.content_metadata.original_duration_estimate)).sum) ∧
    (mergeContentMetadata cs).content_removed_percentage =
      ((jsRound ((cs.map (fun c => c.result.content_metadata.content_removed_percentage)).sum / (cs.length : ℚ))) : ℚ) := by
  have hperm : List.Perm (sortChunks cs) cs := List.perm_insertionSort _ _
  constructor
  · show formatDuration ((sortChunks cs).foldl
        (fun acc c => acc + parseDuration c.result.content_metadata.original_duration_estimate) 0) = _
    rw [foldl_add_map, zero_add]
    exact congrArg formatDuration (List.Perm.sum_eq (hperm.map _))
  · show ((jsRound (((sortChunks cs).foldl
        (fun acc c => acc + c.result.content_metadata.content_removed_percentage) 0) /
        ((sortChunks cs).length : ℚ))) : ℚ) = _
    rw [foldl_add_map, zero_add, hperm.length_eq, List.Perm.sum_eq (hperm.map _)]

/-- C8 counterexample: two chunks with a `01:00` estimate each merge to a
total of 120 seconds rendered as `02:00`, while the `HH:MM:SS` format the
specification asks for would be `00:02:00`; and a zero total renders as
`Unknown`, which is no timestamp at all. -/
theorem mergeContentMetadata_counterexample :
    (mergeContentMetadata crsC3).original_duration_estimate = "02:00" ∧
    specHHMMSS 120 = "00:02:00" ∧
    ("02:00" : String) ≠ "00:02:00" ∧
    formatDuration 0 = "Unknown" := by
  refine ⟨?_, by decide, by decide, rfl⟩
  have h1 : (mergeContentMetadata crsC3).original_duration_estimate = formatDuration 120 := rfl
  rw [h1]
  unfold formatDuration
  rw [if_neg (by decide), show ((120 : ℤ) : ℚ) = ((120 : ℕ) : ℚ) by norm_num,
    secondsToTimestamp_natCast]
  rw [if_neg (by decide)]
  decide

/-- C8 witness: the aggregate characterization on the concrete two-chunk
fixture. -/
theorem mergeContentMetadata_spec_witness :
    crsC3 ≠ [] ∧
    ((mergeContentMetadata crsC3).original_duration_estimate =
      formatDuration ((crsC3.map (fun c => parseDuration c.result.content_metadata.original_duration_estimate)).sum) ∧
     (mergeContentMetadata crsC3).content_removed_percentage =
      ((jsRound ((crsC3.map (fun c => c.result.content_metadata.content_removed_percentage)).sum / (crsC3.length : ℚ))) : ℚ)) :=
  ⟨by decide, mergeContentMetadata_spec crsC3 (by decide)⟩

end Telegrambot
